import Mathlib

/-!
Verification of the diff-aware issue resolution engine of Wise-Code-Watchers.

The definitions below are a shallow embedding of the Python source:

* `src/src/agents/preprocessing/diff_parser.py` (unified-diff parser),
* `src/publish/github_publisher.py` (review-line resolver),
* `src/agents/syntax/core_rules.py` and `src/agents/syntax/issue_filter.py`
  (deterministic classification stage),
* `src/agents/issue_scoring_filter.py` (score-and-filter stage),
* `src/agents/aggregator.py` (dedup, merge into line comments).

Python strings are modelled as Lean `String`, Python ints as `Int` or `Nat`
(matching the sign behaviour the code relies on), Python floats that are
only compared with `>=` as `ℚ`, and `None`-able values as `Option`.
String primitives used by the code (`startswith`, slicing, `lower`,
`split("\n")`, `"\n".join`, substring test) are re-implemented structurally
on the character list so that all definitions evaluate by `decide`.
-/

/-- Model of Python `s.startswith(pre)`. -/
def strStartsWith (s pre : String) : Bool :=
  pre.data.isPrefixOf s.data

/-- Model of Python slicing `s[n:]`. -/
def strDrop (n : Nat) (s : String) : String :=
  String.mk (s.data.drop n)

/-- Model of Python slicing `s[:n]`. -/
def strTake (n : Nat) (s : String) : String :=
  String.mk (s.data.take n)

/-- Model of Python `s.lower()` (the code only applies it to ASCII rule
codes, language names and severity labels). -/
def strLower (s : String) : String :=
  String.mk (s.data.map Char.toLower)

/-- Model of Python `s.upper()` (applied to ASCII severity labels). -/
def strUpper (s : String) : String :=
  String.mk (s.data.map Char.toUpper)

/-- Substring occurrence test on character lists. -/
def sublistOccurs (pat : List Char) : List Char → Bool
  | [] => pat.isPrefixOf []
  | c :: t => pat.isPrefixOf (c :: t) || sublistOccurs pat t

/-- Model of Python `sub in s` (substring test). -/
def strContainsSub (s sub : String) : Bool :=
  sublistOccurs sub.data s.data

/-- Split a character list at newline characters; `splitNl "a\nb" = [a, b]`,
mirroring Python `s.split("\n")` (which yields `[""]` on `""` and an empty
trailing piece when the text ends in a newline). -/
def splitNl : List Char → List (List Char)
  | [] => [[]]
  | c :: rest =>
    if c = '\n' then [] :: splitNl rest
    else
      match splitNl rest with
      | [] => [[c]]
      | l :: ls => (c :: l) :: ls

/-- Model of Python `diff_text.split("\n")`. -/
def splitLines (s : String) : List String :=
  (splitNl s.data).map String.mk

/-- Model of Python `"\n".join(parts)`. -/
def joinLines : List String → String
  | [] => ""
  | p :: ps => ps.foldl (fun acc q => acc ++ "\n" ++ q) p

/-!
## Review line resolver

Embedding of `_resolve_review_line` from `src/publish/github_publisher.py`.
The file mapping built by `_build_file_line_mapping` consists of a set of
touched new-side line numbers (modelled as a `List Int`) and an
old-to-new mapping (a Python dict, modelled as an insertion-ordered
association list where a later binding for the same key wins).
-/

/-- Model of Python dict lookup `d.get(k)` on an insertion-ordered
association list in which a later binding for the same key overwrites an
earlier one. -/
def dictGet (d : List (Int × Int)) (k : Int) : Option Int :=
  (d.reverse.find? (fun p => p.1 = k)).map (·.2)

/-- The search loop inside `nearest_touched`:
`for d in range(1, search_radius + 1)`, checking `target - d` before
`target + d`.  `remaining` counts the iterations still to run, so the loop
tries the distances `d, d + 1, ..., d + remaining - 1` in order. -/
def nearestLoop (touched : List Int) (target : Int) (d : Nat) : Nat → Option Int
  | 0 => none
  | remaining + 1 =>
    if (target - d) ∈ touched then some (target - d)
    else if (target + d) ∈ touched then some (target + d)
    else nearestLoop touched target (d + 1) remaining

/-- `nearest_touched(target)` from `_resolve_review_line`. -/
def nearestTouched (touched : List Int) (radius : Nat) (target : Int) : Option Int :=
  if target ∈ touched then some target
  else nearestLoop touched target 1 radius

/-- Step ① and ② of `_resolve_review_line` for the start line: try
`nearest_touched(line_start)`, then map `line_start` through `old_to_new`
and retry. -/
def resolveStart (touched : List Int) (oldToNew : List (Int × Int))
    (radius : Nat) (lineStart : Int) : Option Int :=
  match nearestTouched touched radius lineStart with
  | some s => some s
  | none =>
    match dictGet oldToNew lineStart with
    | some mapped => nearestTouched touched radius mapped
    | none => none

/-- The end-line resolution used for multi-line comments:
`nearest_touched(line_end)`, then the old-to-new fallback. -/
def resolveEndCandidate (touched : List Int) (oldToNew : List (Int × Int))
    (radius : Nat) (lineEnd : Int) : Option Int :=
  match nearestTouched touched radius lineEnd with
  | some e => some e
  | none =>
    match dictGet oldToNew lineEnd with
    | some mapped => nearestTouched touched radius mapped
    | none => none

/-- A resolved review anchor: Python returns `{"line": l}` or
`{"start_line": s, "line": l}`. -/
structure ReviewAnchor where
  start_line : Option Int
  line : Int
deriving Repr, DecidableEq

/-- Embedding of `_resolve_review_line(file_mapping, line_start, line_end,
search_radius=5)`.  `lineEnd = none` models Python `line_end=None`; the
guard `if line_end and line_end != line_start` makes a `line_end` of `0`
behave like `None` (Python truthiness). -/
def resolveReviewLine (touched : List Int) (oldToNew : List (Int × Int))
    (lineStart : Int) (lineEnd : Option Int) (radius : Nat := 5) :
    Option ReviewAnchor :=
  match resolveStart touched oldToNew radius lineStart with
  | none => none
  | some startNew =>
    match lineEnd with
    | some e =>
      if e ≠ 0 ∧ e ≠ lineStart then
        match resolveEndCandidate touched oldToNew radius e with
        | none => some ⟨none, startNew⟩
        | some endCand =>
          if endCand < startNew then some ⟨some endCand, startNew⟩
          else some ⟨some startNew, endCand⟩
      else some ⟨none, startNew⟩
    | none => some ⟨none, startNew⟩

/-!
## Unified-diff parser

Embedding of `DiffParser` from `src/src/agents/preprocessing/diff_parser.py`.

`parse_unified_diff` mutates `current_file` and `current_hunk` objects that
may already have been appended (by reference) to `files` /
`current_file.hunks`.  Appending happens at flush points (`diff --git`
lines, `@@` lines, end of input); when the regex on such a line fails the
current object is left in place and may be appended again later, so the
same object can occur several times in the output.  The state below models
this aliasing explicitly: `curFileFlushed` (resp. `curHunkFlushed`) counts
how many references to the current file (resp. hunk) object are already in
`files` (resp. `current_file.hunks`); they are materialised as identical
copies of the object's value at the moment it can no longer change.
-/

/-- `DiffHunk` dataclass. -/
structure DiffHunk where
  old_start : Nat
  old_count : Nat
  new_start : Nat
  new_count : Nat
  content : String
  added_lines : List (Nat × String) := []
  removed_lines : List (Nat × String) := []
deriving Repr, DecidableEq

/-- `FileDiff` dataclass (`old_filename` is never assigned by
`parse_unified_diff` and stays `None`). -/
structure FileDiff where
  filename : String
  status : String
  additions : Nat
  deletions : Nat
  hunks : List DiffHunk := []
  old_filename : Option String := none
deriving Repr, DecidableEq

/-- `ParsedDiff` dataclass. -/
structure ParsedDiff where
  files : List FileDiff
  total_additions : Nat
  total_deletions : Nat
  total_files : Nat
deriving Repr, DecidableEq

/-- The `current_file` object while it is still being mutated: its already
flushed hunk references are `closedHunks` plus `curHunkFlushed` references
to the current hunk (kept in `ParseState`). -/
structure WorkFile where
  filename : String
  status : String
  additions : Nat
  deletions : Nat
  closedHunks : List DiffHunk
deriving Repr, DecidableEq

/-- Parser state of the `while` loop in `parse_unified_diff`. -/
structure ParseState where
  closedFiles : List FileDiff
  curFile : Option WorkFile
  curFileFlushed : Nat
  curHunk : Option DiffHunk
  curHunkFlushed : Nat
  newLineNum : Nat
deriving Repr, DecidableEq

/-- The value of `current_file.hunks` as visible through the Python list
right now: closed hunks plus the pending references to the current hunk. -/
def hunksNow (closedHunks : List DiffHunk) (curHunk : Option DiffHunk)
    (flushed : Nat) : List DiffHunk :=
  closedHunks ++ (match curHunk with
    | some h => List.replicate flushed h
    | none => [])

/-- Materialise the `current_file` object given the current hunk object and
a number of references to it in the file's hunk list. -/
def materializeFile (wf : WorkFile) (curHunk : Option DiffHunk)
    (hunkRefs : Nat) : FileDiff :=
  { filename := wf.filename
    status := wf.status
    additions := wf.additions
    deletions := wf.deletions
    hunks := hunksNow wf.closedHunks curHunk hunkRefs }

/-- Greedy run of ASCII digits, as matched by `\d+`; returns the value and
the rest (`none` when no digit is present). -/
def takeDigits : List Char → Option (Nat × List Char)
  | [] => none
  | c :: rest =>
    if c.isDigit then
      match takeDigits rest with
      | some (n, rest2) =>
        -- c heads a longer digit run ending before rest2
        some ((c.toNat - '0'.toNat) * 10 ^ (numDigitsConsumed rest rest2) + n, rest2)
      | none => some (c.toNat - '0'.toNat, rest)
    else none
where
  numDigitsConsumed (before after : List Char) : Nat :=
    before.length - after.length

/-- Embedding of `HUNK_HEADER_PATTERN.match(line)` for the pattern
`^@@ -(\d+)(?:,(\d+))? \+(\d+)(?:,(\d+))? @@`: returns
`(old_start, old_count, new_start, new_count)` with the counts defaulting
to 1 when the optional `,count` group is absent (the Python code uses
`int(m.group(i)) if m.group(i) else 1`). -/
def parseHunkHeader (line : String) : Option (Nat × Nat × Nat × Nat) :=
  match stripPre ['@', '@', ' ', '-'] line.data with
  | none => none
  | some r0 =>
    match takeDigits r0 with
    | none => none
    | some (oldStart, r1) =>
      let (oldCount, r2) := optCount r1
      match stripPre [' ', '+'] r2 with
      | none => none
      | some r3 =>
        match takeDigits r3 with
        | none => none
        | some (newStart, r4) =>
          let (newCount, r5) := optCount r4
          match stripPre [' ', '@', '@'] r5 with
          | none => none
          | some _ => some (oldStart, oldCount, newStart, newCount)
where
  stripPre (pre text : List Char) : Option (List Char) :=
    if pre.isPrefixOf text then some (text.drop pre.length) else none
  optCount (text : List Char) : Nat × List Char :=
    match text with
    | ',' :: rest =>
      match takeDigits rest with
      | some (n, rest2) => (n, rest2)
      | none => (1, text)
    | _ => (1, text)

/-- Embedding of `re.search(r"diff --git a/(.+) b/(.+)", line)` returning
`group(2)`: after the first occurrence of `diff --git a/`, the greedy
groups make `group(2)` the text after the last ` b/` that leaves both
groups non-empty. -/
def parseGitHeader (line : String) : Option String :=
  match afterFirst (String.toList "diff --git a/") line.data with
  | none => none
  | some rest => (lastSplit rest).map String.mk
where
  afterFirst (pat : List Char) : List Char → Option (List Char)
    | [] => if pat.isPrefixOf [] then some [] else none
    | c :: t =>
      if pat.isPrefixOf (c :: t) then some ((c :: t).drop pat.length)
      else afterFirst pat t
  -- last split of `rest` as `g1 ++ " b/" ++ g2` with `g1, g2` non-empty
  lastSplit : List Char → Option (List Char)
    | [] => none
    | _c :: t =>
      match lastSplit t with
      | some g2 => some g2
      | none =>
        match t with
        | ' ' :: 'b' :: '/' :: g2 =>
          -- group 1 is the single leading char here, non-empty; require a
          -- non-empty group 2
          if g2.isEmpty then none else some g2
        | _ => none

/-- The added-line test in the hunk body:
`line.startswith("+") and not line.startswith("+++")`. -/
def isAddLine (line : String) : Bool :=
  strStartsWith line "+" && !(strStartsWith line "+++")

/-- The removed-line test in the hunk body:
`line.startswith("-") and not line.startswith("---")`. -/
def isRemLine (line : String) : Bool :=
  strStartsWith line "-" && !(strStartsWith line "---")

/-- One iteration of the `while` loop of `parse_unified_diff` on one line. -/
def parseStep (s : ParseState) (line : String) : ParseState :=
  if strStartsWith line "diff --git" then
    match s.curFile with
    | some wf =>
      -- if current_file: (if current_hunk: hunks.append); files.append
      let hunkRefs :=
        match s.curHunk with
        | some _ => s.curHunkFlushed + 1
        | none => s.curHunkFlushed
      match parseGitHeader line with
      | some name =>
        -- old file object is closed for good
        let fileNow := materializeFile wf s.curHunk hunkRefs
        { closedFiles := s.closedFiles ++ List.replicate (s.curFileFlushed + 1) fileNow
          curFile := some ⟨name, "modified", 0, 0, []⟩
          curFileFlushed := 0
          curHunk := none
          curHunkFlushed := 0
          newLineNum := s.newLineNum }
      | none =>
        -- regex failed: the same file object stays current with one more
        -- reference in `files`; `current_hunk = None` freezes its pending
        -- references inside the file
        { s with
          curFile := some { wf with closedHunks := hunksNow wf.closedHunks s.curHunk hunkRefs }
          curFileFlushed := s.curFileFlushed + 1
          curHunk := none
          curHunkFlushed := 0 }
    | none =>
      match parseGitHeader line with
      | some name =>
        { s with
          curFile := some ⟨name, "modified", 0, 0, []⟩
          curFileFlushed := 0
          curHunk := none
          curHunkFlushed := 0 }
      | none => { s with curHunk := none, curHunkFlushed := 0 }
  else if strStartsWith line "--- " then
    match s.curFile with
    | some wf =>
      if line = "--- /dev/null" then
        { s with curFile := some { wf with status := "added" } }
      else s
    | none => s
  else if strStartsWith line "+++ " then
    match s.curFile with
    | some wf =>
      if line = "+++ /dev/null" then
        { s with curFile := some { wf with status := "deleted" } }
      else s
    | none => s
  else if strStartsWith line "@@" then
    match parseHunkHeader line with
    | some (oldStart, oldCount, newStart, newCount) =>
      let s1 :=
        match s.curFile, s.curHunk with
        | some wf, some h =>
          -- the flushed references (plus the flush on this line) freeze
          -- when current_hunk is replaced
          let wf2 : WorkFile :=
            { wf with closedHunks := wf.closedHunks ++ List.replicate (s.curHunkFlushed + 1) h }
          { s with curFile := some wf2 }
        | _, _ => s
      { s1 with
        curHunk := some ⟨oldStart, oldCount, newStart, newCount, line, [], []⟩
        curHunkFlushed := 0
        newLineNum := newStart }
    | none =>
      match s.curFile, s.curHunk with
      | some _, some _ => { s with curHunkFlushed := s.curHunkFlushed + 1 }
      | _, _ => s
  else
    match s.curHunk with
    | some h =>
      if isAddLine line then
        { s with
          curHunk := some { h with
            added_lines := h.added_lines ++ [(s.newLineNum, strDrop 1 line)]
            content := h.content ++ "\n" ++ line }
          curFile := s.curFile.map (fun wf => { wf with additions := wf.additions + 1 })
          newLineNum := s.newLineNum + 1 }
      else if isRemLine line then
        { s with
          curHunk := some { h with
            removed_lines := h.removed_lines ++ [(s.newLineNum, strDrop 1 line)]
            content := h.content ++ "\n" ++ line }
          curFile := s.curFile.map (fun wf => { wf with deletions := wf.deletions + 1 }) }
      else
        { s with
          curHunk := some { h with content := h.content ++ "\n" ++ line }
          newLineNum := if strStartsWith line "\\" then s.newLineNum else s.newLineNum + 1 }
    | none => s

/-- The state before the first line. -/
def initState : ParseState :=
  { closedFiles := []
    curFile := none
    curFileFlushed := 0
    curHunk := none
    curHunkFlushed := 0
    newLineNum := 0 }

/-- The trailing flush after the loop:
`if current_file: (if current_hunk: hunks.append); files.append`. -/
def finalizeState (s : ParseState) : List FileDiff :=
  match s.curFile with
  | none => s.closedFiles
  | some wf =>
    let hunkRefs :=
      match s.curHunk with
      | some _ => s.curHunkFlushed + 1
      | none => s.curHunkFlushed
    s.closedFiles ++
      List.replicate (s.curFileFlushed + 1) (materializeFile wf s.curHunk hunkRefs)

/-- `parse_unified_diff` restricted to an already split line list. -/
def parseLines (lines : List String) : List FileDiff :=
  finalizeState (lines.foldl parseStep initState)

/-- Embedding of `DiffParser.parse_unified_diff`. -/
def parseUnifiedDiff (diff_text : String) : List FileDiff :=
  parseLines (splitLines diff_text)

/-- One entry of `files_changed.json`, as read by `parse_pr_folder`
(`file_info.get("additions", 0)` / `file_info.get("deletions", 0)`). -/
structure FileChangedInfo where
  additions : Nat
  deletions : Nat
deriving Repr, DecidableEq

/-- Embedding of `DiffParser.parse_pr_folder`.  The filesystem reads are
modelled by the two optional arguments: `filesChanged` is the parsed
`files_changed.json` when that file exists, `diffText` the contents of
`pr.diff` when it exists.  The totals are accumulated from
`files_changed.json` alone; the parsed per-file counts never feed them. -/
def parsePRFolder (filesChanged : Option (List FileChangedInfo))
    (diffText : Option String) : ParsedDiff :=
  let totalAdditions :=
    match filesChanged with
    | some infos => (infos.map (·.additions)).sum
    | none => 0
  let totalDeletions :=
    match filesChanged with
    | some infos => (infos.map (·.deletions)).sum
    | none => 0
  let files :=
    match diffText with
    | some t => parseUnifiedDiff t
    | none => []
  { files := files
    total_additions := totalAdditions
    total_deletions := totalDeletions
    total_files := files.length }

/-!
## Deterministic classification stage

Embedding of `src/agents/syntax/core_rules.py` and
`IssueFilter.static_filter` from `src/agents/syntax/issue_filter.py`.
The per-language dicts `CORE_RULES` / `IGNORE_RULES` are embedded as
insertion-ordered lists, which is how Python iterates them.
-/

/-- `PYTHON_CORE_RULES`, `TYPESCRIPT_CORE_RULES`, ... merged through the
`CORE_RULES` aggregate dict: for each language the ordered list of
`(category, rule patterns)` pairs. -/
def langCoreRules (language : String) : List (String × List String) :=
  if language = "python" then
    [("syntax", ["E9", "F821", "F822", "F823", "F831", "F632", "F633"]),
     ("memory", ["SIM115", "B006", "B008", "PLW0603", "PLW0602", "R1732", "W1514", "RUF013"]),
     ("security", ["S"])]
  else if language = "typescript" ∨ language = "javascript" then
    [("syntax", ["no-undef", "no-unreachable", "no-dupe-keys", "no-dupe-args",
                 "no-func-assign", "no-import-assign", "no-const-assign", "no-class-assign",
                 "valid-typeof", "no-obj-calls", "no-invalid-regexp", "no-unexpected-multiline",
                 "@typescript-eslint/no-misused-promises"]),
     ("memory", ["react-hooks/exhaustive-deps", "no-async-promise-executor", "require-await",
                 "no-return-await", "prefer-promise-reject-errors", "no-floating-promises",
                 "@typescript-eslint/no-floating-promises"]),
     ("security", ["no-eval", "no-implied-eval", "no-new-func", "no-script-url",
                   "security/detect-eval-with-expression", "security/detect-non-literal-regexp",
                   "security/detect-non-literal-require", "security/detect-possible-timing-attacks"])]
  else if language = "go" then
    [("syntax", ["govet", "typecheck", "staticcheck", "ineffassign"]),
     ("memory", ["bodyclose", "sqlclosecheck", "rowserrcheck", "contextcheck", "noctx", "unparam"]),
     ("security", ["gosec"])]
  else if language = "java" then
    [("syntax", ["compiler", "UnusedLocalVariable"]),
     ("memory", ["DMI", "OBL", "OS_OPEN_STREAM", "ODR_OPEN_DATABASE_RESOURCE",
                 "SBSC_USE_STRINGBUFFER_CONCATENATION", "WMI_WRONG_MAP_ITERATOR"]),
     ("security", ["SQL", "XSS", "PATH_TRAVERSAL", "COMMAND_INJECTION", "LDAP_INJECTION",
                   "XPATH_INJECTION", "XXE", "SSRF"])]
  else if language = "ruby" then
    [("syntax", ["Lint/Syntax", "Lint/Void", "Lint/UnreachableCode", "Lint/DuplicateMethods",
                 "Lint/CircularArgumentReference", "Lint/ParenthesesAsGroupedExpression"]),
     ("memory", ["Lint/UselessAssignment", "Lint/SuppressedException", "Lint/RescueException",
                 "Lint/EnsureReturn", "Lint/FloatOutOfRange"]),
     ("security", ["Security", "Lint/Eval"])]
  else []

/-- `IGNORE_RULES` lookup: `IGNORE_RULES.get(language, [])`. -/
def langIgnoreRules (language : String) : List String :=
  if language = "python" then
    ["E1", "E2", "E3", "E4", "E5", "E7", "W", "F401", "F841", "C9", "N", "D",
     "ANN", "Q", "COM", "ISC", "T20"]
  else if language = "typescript" ∨ language = "javascript" then
    ["no-unused-vars", "@typescript-eslint/no-unused-vars", "semi", "quotes", "indent",
     "comma-dangle", "no-trailing-spaces", "eol-last", "max-len", "no-multiple-empty-lines",
     "object-curly-spacing", "array-bracket-spacing", "space-before-function-paren",
     "prettier/prettier", "@typescript-eslint/explicit-function-return-type",
     "@typescript-eslint/explicit-module-boundary-types"]
  else if language = "go" then
    ["gofmt", "goimports", "gofumpt", "goconst", "gocritic", "godot", "godox", "gocyclo",
     "gocognit", "lll", "wsl", "nlreturn", "wrapcheck", "varnamelen", "nonamedreturns"]
  else if language = "java" then
    ["Javadoc", "LineLength", "Indentation", "WhitespaceAround", "WhitespaceAfter",
     "NoWhitespaceBefore", "EmptyLineSeparator", "NeedBraces", "LeftCurly", "RightCurly",
     "MethodName", "ConstantName", "LocalVariableName", "MemberName", "ParameterName",
     "TypeName", "PackageName", "ImportOrder", "AvoidStarImport", "UnusedImports"]
  else if language = "ruby" then
    ["Style/", "Layout/", "Metrics/", "Naming/"]
  else []

/-- The match test `rule.startswith(pattern) or rule == pattern` used by all
three rule-table functions. -/
def ruleMatches (rule pat : String) : Bool :=
  strStartsWith rule pat || rule == pat

/-- `is_core_rule(rule, language)`. -/
def isCoreRule (rule language : String) : Bool :=
  (langCoreRules language).any (fun cr => cr.2.any (ruleMatches rule))

/-- `is_ignored_rule(rule, language)`. -/
def isIgnoredRule (rule language : String) : Bool :=
  (langIgnoreRules language).any (ruleMatches rule)

/-- `get_rule_category(rule, language)`. -/
def getRuleCategory (rule language : String) : String :=
  match (langCoreRules language).find? (fun cr => cr.2.any (ruleMatches rule)) with
  | some cr => cr.1
  | none => "style"

/-- `should_keep_issue(rule, language, severity)`. -/
def shouldKeepIssue (rule language severity : String) : Bool × String :=
  if isIgnoredRule rule language then (false, "style")
  else if isCoreRule rule language then (true, getRuleCategory rule language)
  else if strLower severity = "error" then (true, "unknown")
  else (true, "unknown")

/-- `classify_unknown_issue(rule, language, message)`. -/
def classifyUnknownIssue (rule _language message : String) : String :=
  let ruleLower := strLower rule
  let messageLower := strLower message
  let hit := fun kws => kws.any (fun kw =>
    strContainsSub ruleLower kw || strContainsSub messageLower kw)
  if hit ["injection", "xss", "csrf", "auth", "password", "secret",
          "credential", "vulnerability", "unsafe", "insecure", "sql"] then "security"
  else if hit ["leak", "resource", "close", "dispose", "release", "memory",
               "stream", "connection", "file", "handle", "buffer"] then "memory"
  else if hit ["undefined", "undeclared", "syntax", "parse", "type", "error",
               "invalid", "illegal", "unreachable", "deadcode"] then "syntax"
  else "unknown"

/-- `CodeIssue` (from `agents/syntax/schemas.py`): the fields consulted by
`static_filter`. -/
structure CodeIssue where
  file : String
  line : Nat
  rule : String
  message : String
  severity : String
  category : String
  language : String
deriving Repr, DecidableEq

/-- The language normalisation in `static_filter`:
`issue.language.lower() if issue.language else "unknown"` (an empty string
is falsy in Python). -/
def issueLanguage (issue : CodeIssue) : String :=
  if issue.language = "" then "unknown" else strLower issue.language

/-- The per-issue decision inside the `static_filter` loop: returns the
issue with its updated category when it is kept, `none` when dropped. -/
def staticFilterStep (includeStyle : Bool) (issue : CodeIssue) : Option CodeIssue :=
  let language := issueLanguage issue
  let kc := shouldKeepIssue issue.rule language issue.severity
  if ¬ kc.1 then none
  else
    let category :=
      if kc.2 = "unknown" then
        let guessed := classifyUnknownIssue issue.rule language issue.message
        if guessed ≠ "unknown" then guessed else kc.2
      else kc.2
    if category ≠ "style" ∨ includeStyle then some { issue with category := category }
    else none

/-- Embedding of `IssueFilter.static_filter` (the list it returns). -/
def staticFilter (issues : List CodeIssue) (includeStyle : Bool) : List CodeIssue :=
  issues.filterMap (staticFilterStep includeStyle)

/-!
## Score-and-filter stage

Embedding of `IssueScoringFilter` from `src/agents/issue_scoring_filter.py`.
The `Bug` / `Severity` model types live in `output/models.py`, which is not
part of the sources; they are modelled from the spec (§3 Finding /
ScoreResult) restricted to the fields this code reads and writes.  Scores
are floats in `[0,1]` that are only ever compared with `>=`; they are
modelled as `ℚ`.
-/

/-- Modelled from the spec: `Severity` enum of `output/models.py`
(severity ∈ \x7blow, medium, high, critical\x7d); `.value` is the lowercase
name, as used by `issue.severity.value` in the code. -/
inductive Severity where
  | low
  | medium
  | high
  | critical
deriving Repr, DecidableEq

/-- `Severity.value`. -/
def sevValue : Severity → String
  | .low => "low"
  | .medium => "medium"
  | .high => "high"
  | .critical => "critical"

/-- Modelled from the spec: the `Bug` model of `output/models.py`,
restricted to the fields read/written by the aggregation pipeline
(`id`, `severity`, `title`, `description`, `file`, `line`, `suggestion`,
plus the score fields attached for transparency). -/
structure Bug where
  id : String
  severity : Severity
  title : String
  description : String
  file : String
  line : Int
  suggestion : Option String := none
  relevance_score : Option ℚ := none
  severity_score : Option ℚ := none
  score_reasoning : Option String := none
deriving Repr, DecidableEq

/-- `IssueScore` pydantic model. -/
structure IssueScore where
  issue_id : String
  relevance_score : ℚ
  severity_score : ℚ
  confidence_score : ℚ
  reasoning : String
deriving Repr, DecidableEq

/-- `ScoringConfig` dataclass (defaults: 0.5 / 0.4 / 25 / false / 0.3). -/
structure ScoringConfig where
  relevance_threshold : ℚ := mkRat 1 2
  severity_threshold : ℚ := mkRat 2 5
  max_issues_per_batch : Nat := 25
  include_low_confidence : Bool := false
  min_confidence : ℚ := mkRat 3 10
deriving Repr, DecidableEq

/-- The batching loop
`for i in range(0, len(issues), max_issues_per_batch)`: successive slices
`issues[i:i+size]`.  Defined for a positive `size` (Python `range` raises
on step 0). -/
def batchSlicesGo (size : Nat) : Nat → List Bug → List (List Bug)
  | _, [] => []
  | 0, _ => []
  | fuel + 1, l => l.take size :: batchSlicesGo size fuel (l.drop size)

/-- `batchSlicesGo` driven with enough fuel to exhaust the list. -/
def batchSlices (size : Nat) (issues : List Bug) : List (List Bug) :=
  batchSlicesGo size issues.length issues

/-- The scoring oracle: the structured-output LLM call inside
`_score_batch`, which either returns a list of scores or raises. -/
abbrev ScoringOracle := List Bug → Except String (List IssueScore)

/-- Embedding of `IssueScoringFilter._score_batch`: on oracle failure every
issue of the batch receives the neutral fallback score
(relevance 0.5, severity 0.5, confidence 0.3, reasoning
`"Scoring failed: "` plus the truncated error text). -/
def scoreBatch (oracle : ScoringOracle) (batch : List Bug) : List IssueScore :=
  match oracle batch with
  | .ok scores => scores
  | .error e =>
    batch.map (fun issue =>
      { issue_id := issue.id
        relevance_score := mkRat 1 2
        severity_score := mkRat 1 2
        confidence_score := mkRat 3 10
        reasoning := "Scoring failed: " ++ strTake 50 e })

/-- All scores collected across batches (`all_scores`). -/
def allScores (cfg : ScoringConfig) (oracle : ScoringOracle)
    (issues : List Bug) : List IssueScore :=
  (batchSlices cfg.max_issues_per_batch issues).flatMap (scoreBatch oracle)

/-- `score_map.get(issue.id)`: dict built in order from `all_scores`, a
later score for the same id overwriting an earlier one. -/
def scoreMapGet (scores : List IssueScore) (id : String) : Option IssueScore :=
  scores.reverse.find? (fun sc => sc.issue_id = id)

/-- The per-issue keep/drop decision in the filtering loop of
`score_and_filter`; returns the issue (with attached scores) when kept. -/
def scoreKeepStep (cfg : ScoringConfig) (scores : List IssueScore)
    (issue : Bug) : Option Bug :=
  match scoreMapGet scores issue.id with
  | none =>
    if sevValue issue.severity = "critical" ∨ sevValue issue.severity = "high" then
      some issue
    else none
  | some score =>
    let passesRelevance := score.relevance_score ≥ cfg.relevance_threshold
    let passesSeverity := score.severity_score ≥ cfg.severity_threshold
    let passesConfidence :=
      cfg.include_low_confidence ∨ score.confidence_score ≥ cfg.min_confidence
    if passesRelevance ∧ passesSeverity ∧ passesConfidence then
      some { issue with
        relevance_score := some score.relevance_score
        severity_score := some score.severity_score
        score_reasoning := some score.reasoning }
    else none

/-- Embedding of `IssueScoringFilter.score_and_filter` (`hasLLM` models the
`if not self.llm` guard). -/
def scoreAndFilter (cfg : ScoringConfig) (hasLLM : Bool)
    (oracle : ScoringOracle) (issues : List Bug) : List Bug :=
  if issues = [] then []
  else if ¬ hasLLM then issues
  else issues.filterMap (scoreKeepStep cfg (allScores cfg oracle issues))

/-!
## Aggregator: deduplication and line-comment merging

Embedding of `ResultAggregator._deduplicate_issues` and
`ResultAggregator._create_line_comments` from `src/agents/aggregator.py`.
-/

/-- A raw issue dict as consumed by `_deduplicate_issues`: the fields the
identity key reads (`issue.get("file", "")`, `issue.get("line", 0)`,
`issue.get("title", "")`), plus a description standing for the remaining
payload carried through unchanged. -/
structure RawIssue where
  file : String
  line : Int
  title : String
  description : String := ""
deriving Repr, DecidableEq

/-- The dedup identity key `(file, line, title[:30])`. -/
def issueKey (issue : RawIssue) : String × Int × String :=
  (issue.file, issue.line, strTake 30 issue.title)

/-- The loop of `_deduplicate_issues` with its `seen` set. -/
def dedupGo (seen : List (String × Int × String)) : List RawIssue → List RawIssue
  | [] => []
  | issue :: rest =>
    if issueKey issue ∈ seen then dedupGo seen rest
    else issue :: dedupGo (issueKey issue :: seen) rest

/-- Embedding of `ResultAggregator._deduplicate_issues`. -/
def deduplicateIssues (issues : List RawIssue) : List RawIssue :=
  dedupGo [] issues

/-- `LineComment` (modelled from the spec: path, line, body, side). -/
structure LineComment where
  path : String
  line : Int
  body : String
  side : String
deriving Repr, DecidableEq

/-- Python `str(n)` for the non-negative ints interpolated into comment
bodies. -/
def natStr (n : Nat) : String :=
  Nat.repr n

/-- The body parts built for a single bug at a location
(`len(location_bugs) == 1` branch of `_create_line_comments`). -/
def singleBugParts (bug : Bug) : List String :=
  ["**" ++ strUpper (sevValue bug.severity) ++ "**: " ++ bug.title, "", bug.description] ++
    (match bug.suggestion with
     | some sug => ["", "**Suggestion**: " ++ sug]
     | none => [])

/-- The body parts appended for the bug numbered `i` in the merged branch
(`for i, bug in enumerate(location_bugs, 1)`). -/
def mergedBugSection (i : Nat) (bug : Bug) : List String :=
  ["### " ++ natStr i ++ ". [" ++ strUpper (sevValue bug.severity) ++ "] " ++ bug.title,
   "", bug.description] ++
    (match bug.suggestion with
     | some sug => ["\n**Suggestion**: " ++ sug]
     | none => []) ++
    [""]

/-- The comment body for the bugs grouped at one location. -/
def mergedBody (locationBugs : List Bug) : String :=
  joinLines
    (match locationBugs with
     | [bug] => singleBugParts bug
     | _ =>
       ("**" ++ natStr locationBugs.length ++ " issues found on this line:**") :: "" ::
         (locationBugs.enumFrom 1).flatMap (fun ib => mergedBugSection ib.1 ib.2))

/-- Append `bug` to the group of its location in the insertion-ordered
`bugs_by_location` dict (append a new key at the end when absent). -/
def insertByLocation (groups : List ((String × Int) × List Bug))
    (loc : String × Int) (bug : Bug) : List ((String × Int) × List Bug) :=
  match groups with
  | [] => [(loc, [bug])]
  | g :: rest =>
    if g.1 = loc then (g.1, g.2 ++ [bug]) :: rest
    else g :: insertByLocation rest loc bug

/-- One iteration of the grouping loop of `_create_line_comments`: skip a
bug without file or with a non-positive line, route a bug whose location is
not a valid diff line to `off_diff_bugs`, group the rest by
`(file, line)`. -/
def groupBugsStep (validLines : Option (List (String × Int)))
    (acc : List ((String × Int) × List Bug) × List Bug) (bug : Bug) :
    List ((String × Int) × List Bug) × List Bug :=
  if bug.file = "" ∨ bug.line ≤ 0 then acc
  else
    let loc := (bug.file, bug.line)
    let isOff : Bool :=
      match validLines with
      | some vl => decide (loc ∉ vl)
      | none => false
    if isOff then (acc.1, acc.2 ++ [bug])
    else (insertByLocation acc.1 loc bug, acc.2)

/-- The grouping loop of `_create_line_comments`: `bugs_by_location` (in
first-seen key order, each group in input order) and `off_diff_bugs`. -/
def groupBugs (validLines : Option (List (String × Int))) (bugs : List Bug) :
    List ((String × Int) × List Bug) × List Bug :=
  bugs.foldl (groupBugsStep validLines) ([], [])

/-- Embedding of `ResultAggregator._create_line_comments`: one merged
comment per grouped location (dict iteration order = first-seen key order),
plus the off-diff bugs.  `validLines = none` models `parsed_diff` being
absent. -/
def mkLineComment (g : (String × Int) × List Bug) : LineComment :=
  { path := g.1.1, line := g.1.2, body := mergedBody g.2, side := "RIGHT" }

def createLineComments (bugs : List Bug)
    (validLines : Option (List (String × Int))) : List LineComment × List Bug :=
  let grouped := groupBugs validLines bugs
  (grouped.1.map mkLineComment, grouped.2)

/-!
## Helper state for the deduplication and grouping proofs
-/

/-- The `seen` set accumulated by the dedup loop over a list. -/
def seenAcc (seen : List (String × Int × String)) : List RawIssue → List (String × Int × String)
  | [] => seen
  | issue :: rest =>
    if issueKey issue ∈ seen then seenAcc seen rest
    else seenAcc (issueKey issue :: seen) rest

/-!
## Per-file addition/deletion counts
-/

/-- Total added-line records across a list of hunks. -/
def sumAdded (hunks : List DiffHunk) : Nat :=
  (hunks.map (fun h => h.added_lines.length)).sum

/-- Total removed-line records across a list of hunks. -/
def sumRemoved (hunks : List DiffHunk) : Nat :=
  (hunks.map (fun h => h.removed_lines.length)).sum

/-- Every `@@` line parses as a hunk header and every `diff --git` line
matches the file-header regex: under this hypothesis no object is ever
flushed twice. -/
def wellFormedHeaders (lines : List String) : Prop :=
  ∀ l ∈ lines,
    (strStartsWith l "@@" = true → (parseHunkHeader l).isSome = true) ∧
    (strStartsWith l "diff --git" = true → (parseGitHeader l).isSome = true)

/-- The counting invariant maintained by the parser on well-formed input:
no pending duplicate flushes, every closed file's counters equal its hunk
sums, and the current file's counters equal the sums over its closed hunks
plus the open hunk. -/
def CountInv (s : ParseState) : Prop :=
  s.curFileFlushed = 0 ∧ s.curHunkFlushed = 0 ∧
  (∀ f ∈ s.closedFiles, f.additions = sumAdded f.hunks ∧ f.deletions = sumRemoved f.hunks) ∧
  (∀ wf, s.curFile = some wf →
    wf.additions = sumAdded wf.closedHunks +
      (match s.curHunk with | some h => h.added_lines.length | none => 0) ∧
    wf.deletions = sumRemoved wf.closedHunks +
      (match s.curHunk with | some h => h.removed_lines.length | none => 0))

/-- Lookup in the insertion-ordered `bugs_by_location` dict. -/
def lookupGroups (groups : List ((String × Int) × List Bug)) (loc : String × Int) :
    Option (List Bug) :=
  (groups.find? (fun g => g.1 = loc)).map (·.2)

/-- Whether a location is commentable: member of the valid diff lines when
a parsed diff is present, always when it is absent. -/
def inDiffTest (validLines : Option (List (String × Int))) (loc : String × Int) : Bool :=
  match validLines with
  | some vl => decide (loc ∈ vl)
  | none => true

/-- The test selecting exactly the bugs that the grouping loop sends to the
anchor `(f, l)`: right file and line, eligible (non-empty file, positive
line), and on a valid diff line when a diff is present. -/
def anchorTest (validLines : Option (List (String × Int))) (f : String) (l : Int)
    (bug : Bug) : Bool :=
  decide (bug.file = f) && decide (bug.line = l) &&
  !(decide (bug.file = "") || decide (bug.line ≤ 0)) &&
  inDiffTest validLines (f, l)

/-- How a group list lookup grows when new bugs are appended. -/
def optExtend (o : Option (List Bug)) (fl : List Bug) : Option (List Bug) :=
  match o with
  | some g => some (g ++ fl)
  | none => if fl = [] then none else some fl

/-!
## Lemmas about the nearest-touched search
-/

/-- Whatever `nearestLoop` returns is a touched line. -/
theorem nearestLoop_mem {touched : List Int} {target : Int} {d remaining : Nat}
    {r : Int} (h : nearestLoop touched target d remaining = some r) :
    r ∈ touched := by
  induction remaining generalizing d with
  | zero => simp [nearestLoop] at h
  | succ n ih =>
    rw [nearestLoop] at h
    split at h
    · cases h; assumption
    · split at h
      · cases h; assumption
      · exact ih h

/-- Whatever `nearestTouched` returns is a touched line. -/
theorem nearestTouched_mem {touched : List Int} {radius : Nat} {target r : Int}
    (h : nearestTouched touched radius target = some r) : r ∈ touched := by
  rw [nearestTouched] at h
  split at h
  · cases h; assumption
  · exact nearestLoop_mem h

/-- Whatever `resolveStart` returns is a touched line. -/
theorem resolveStart_mem {touched : List Int} {oldToNew : List (Int × Int)}
    {radius : Nat} {lineStart r : Int}
    (h : resolveStart touched oldToNew radius lineStart = some r) : r ∈ touched := by
  rw [resolveStart] at h
  split at h
  · next heq => cases h; exact nearestTouched_mem heq
  · split at h
    · exact nearestTouched_mem h
    · cases h

/-- Whatever `resolveEndCandidate` returns is a touched line. -/
theorem resolveEndCandidate_mem {touched : List Int} {oldToNew : List (Int × Int)}
    {radius : Nat} {lineEnd r : Int}
    (h : resolveEndCandidate touched oldToNew radius lineEnd = some r) : r ∈ touched := by
  rw [resolveEndCandidate] at h
  split at h
  · next heq => cases h; exact nearestTouched_mem heq
  · split at h
    · exact nearestTouched_mem h
    · cases h

/-- Full specification of the search loop: starting at distance `d` with no
touched line at any smaller positive distance, a successful result lies at
some distance `k` in the scanned window, prefers `target - k` over
`target + k`, and no touched line lies strictly closer. -/
theorem nearestLoop_spec {touched : List Int} {target : Int} :
    ∀ (remaining d : Nat) (r : Int), 1 ≤ d →
    (∀ e : Nat, 1 ≤ e → e < d → (target - e) ∉ touched ∧ (target + e) ∉ touched) →
    nearestLoop touched target d remaining = some r →
    ∃ k : Nat, d ≤ k ∧ k < d + remaining ∧
      (r = target - k ∨ (r = target + k ∧ (target - (k : Int)) ∉ touched)) ∧
      (∀ e : Nat, 1 ≤ e → e < k → (target - e) ∉ touched ∧ (target + e) ∉ touched) := by
  intro remaining
  induction remaining with
  | zero => intro d r _ _ h; simp [nearestLoop] at h
  | succ n ih =>
    intro d r hd hpre h
    rw [nearestLoop] at h
    by_cases hminus : (target - d) ∈ touched
    · rw [if_pos hminus] at h
      cases h
      exact ⟨d, le_refl d, by omega, Or.inl rfl, hpre⟩
    · rw [if_neg hminus] at h
      by_cases hplus : (target + d) ∈ touched
      · rw [if_pos hplus] at h
        cases h
        exact ⟨d, le_refl d, by omega, Or.inr ⟨rfl, hminus⟩, hpre⟩
      · rw [if_neg hplus] at h
        obtain ⟨k, hk1, hk2, hk3, hk4⟩ := ih (d + 1) r (by omega)
          (fun e he1 he2 => by
            by_cases hlt : e < d
            · exact hpre e he1 hlt
            · have : e = d := by omega
              subst this
              exact ⟨hminus, hplus⟩)
          h
        exact ⟨k, by omega, by omega, hk3, hk4⟩

/-- A touched line `t` lies at distance `(t - target).natAbs`, so absence of
touched lines at all positive distances below `k` (and at `target` itself)
bounds every touched line's distance by `k`. -/
theorem touched_distance_ge {touched : List Int} {target : Int} {k : Nat}
    (hself : target ∉ touched)
    (hgap : ∀ e : Nat, 1 ≤ e → e < k → (target - e) ∉ touched ∧ (target + e) ∉ touched) :
    ∀ t ∈ touched, k ≤ (t - target).natAbs := by
  intro t ht
  by_contra hlt
  push_neg at hlt
  set e := (t - target).natAbs with he
  have hcases : t - target = (e : Int) ∨ t - target = -(e : Int) := Int.natAbs_eq _
  by_cases he0 : e = 0
  · have : t = target := by omega
    subst this; exact hself ht
  · have he1 : 1 ≤ e := by omega
    obtain ⟨hminus, hplus⟩ := hgap e he1 hlt
    rcases hcases with hc | hc
    · apply hplus
      have hte : t = target + (e : Int) := by omega
      rwa [hte] at ht
    · apply hminus
      have hte : t = target - (e : Int) := by omega
      rwa [hte] at ht

/-- **C3**: when the reported line is not itself a touched new-side line,
the resolver searches outward symmetrically up to the radius for the
nearest touched line; on a tie (touched lines at equal distance below and
above) the lower line number wins; in particular, with touched lines
{12, 20}, a finding at line 15 resolves to line 12. -/
theorem nearest_search_symmetric_tie_lower :
    (∀ (touched : List Int) (radius : Nat) (target r : Int),
      target ∉ touched →
      nearestTouched touched radius target = some r →
      r ∈ touched ∧
      ∃ k : Nat, 1 ≤ k ∧ k ≤ radius ∧
        (r = target - k ∨ r = target + k) ∧
        (∀ t ∈ touched, k ≤ (t - target).natAbs) ∧
        (r = target + k → (target - (k : Int)) ∉ touched)) ∧
    resolveReviewLine [12, 20] [] 15 none 5 = some ⟨none, 12⟩ := by
  constructor
  · intro touched radius target r hself h
    rw [nearestTouched, if_neg hself] at h
    refine ⟨nearestLoop_mem h, ?_⟩
    obtain ⟨k, hk1, hk2, hk3, hk4⟩ :=
      nearestLoop_spec radius 1 r (le_refl 1) (fun e he1 he2 => by omega) h
    refine ⟨k, hk1, by omega, ?_, touched_distance_ge hself hk4, ?_⟩
    · rcases hk3 with hk | hk
      · exact Or.inl hk
      · exact Or.inr hk.1
    · intro hplus
      rcases hk3 with hk | hk
      · exfalso
        rw [hk] at hplus
        omega
      · exact hk.2
  · decide

/-- Witness for C3: the concrete nearest-search instance of the claim. -/
theorem nearest_search_symmetric_tie_lower_witness :
    (12 : Int) ∈ ([12, 20] : List Int) ∧
    ∃ k : Nat, 1 ≤ k ∧ k ≤ 5 ∧
      ((12 : Int) = 15 - k ∨ (12 : Int) = 15 + k) ∧
      (∀ t ∈ ([12, 20] : List Int), k ≤ (t - 15).natAbs) ∧
      ((12 : Int) = 15 + k → (15 - (k : Int)) ∉ ([12, 20] : List Int)) :=
  nearest_search_symmetric_tie_lower.1 [12, 20] 5 15 12 (by decide) (by decide)

/-- **C10**: whenever `_resolve_review_line` returns an anchor, both its
`line` and (when present) its `start_line` are touched new-side lines: the
resolver never anchors a comment outside the touched set. -/
theorem resolved_anchor_lines_touched :
    ∀ (touched : List Int) (oldToNew : List (Int × Int)) (lineStart : Int)
      (lineEnd : Option Int) (radius : Nat) (a : ReviewAnchor),
      resolveReviewLine touched oldToNew lineStart lineEnd radius = some a →
      a.line ∈ touched ∧ ∀ s, a.start_line = some s → s ∈ touched := by
  intro touched oldToNew lineStart lineEnd radius a h
  rw [resolveReviewLine] at h
  split at h
  · cases h
  · next startNew hs =>
    cases lineEnd with
    | none =>
      cases h
      exact ⟨resolveStart_mem hs, by intro s hsl; cases hsl⟩
    | some e =>
      simp only at h
      split at h
      · split at h
        · cases h
          exact ⟨resolveStart_mem hs, by intro s hsl; cases hsl⟩
        · next endCand hend =>
          split at h
          · cases h
            exact ⟨resolveStart_mem hs, by
              intro s hsl; cases hsl; exact resolveEndCandidate_mem hend⟩
          · cases h
            exact ⟨resolveEndCandidate_mem hend, by
              intro s hsl; cases hsl; exact resolveStart_mem hs⟩
      · cases h
        exact ⟨resolveStart_mem hs, by intro s hsl; cases hsl⟩

/-- Witness for C10 at a concrete range anchor. -/
theorem resolved_anchor_lines_touched_witness :
    (⟨some 3, 9⟩ : ReviewAnchor).line ∈ ([3, 9] : List Int) ∧
    ∀ s, (⟨some 3, 9⟩ : ReviewAnchor).start_line = some s →
      s ∈ ([3, 9] : List Int) :=
  resolved_anchor_lines_touched [3, 9] [] 9 (some 2) 5 ⟨some 3, 9⟩ (by decide)

/-- **C7** (amended): when the resolver is given a *non-zero* `line_end`
that differs from `line_start` and the start resolves: if the end fails to
resolve (directly, by nearest search, and via the old-to-new mapping) the
result is a single-line anchor at the resolved start; otherwise the result
is a range anchor carrying the two resolved values with the smaller one as
`start_line`, so `start_line <= line` always holds.  (A `line_end` of `0`
is falsy in Python and is treated as if no `line_end` had been given.) -/
theorem range_anchor_resolution (touched : List Int) (oldToNew : List (Int × Int))
    (radius : Nat) (lineStart e s : Int)
    (he0 : e ≠ 0) (hne : e ≠ lineStart)
    (hs : resolveStart touched oldToNew radius lineStart = some s) :
    (resolveEndCandidate touched oldToNew radius e = none →
      resolveReviewLine touched oldToNew lineStart (some e) radius = some ⟨none, s⟩) ∧
    (∀ t, resolveEndCandidate touched oldToNew radius e = some t →
      resolveReviewLine touched oldToNew lineStart (some e) radius =
        some ⟨some (min s t), max s t⟩ ∧ min s t ≤ max s t) := by
  constructor
  · intro hend
    rw [resolveReviewLine, hs]
    simp only [if_pos (And.intro he0 hne), hend]
  · intro t hend
    rw [resolveReviewLine, hs]
    simp only [if_pos (And.intro he0 hne), hend]
    constructor
    · by_cases hlt : t < s
      · rw [if_pos hlt]
        have hmin : min s t = t := by omega
        have hmax : max s t = s := by omega
        rw [hmin, hmax]
      · rw [if_neg hlt]
        have hmin : min s t = s := by omega
        have hmax : max s t = t := by omega
        rw [hmin, hmax]
    · omega

/-- Counterexample for C7 as stated: with touched lines {3}, `line_start=3`
and `line_end=0`, the end *does* resolve (to 3 by nearest search) and
differs from the start, yet the result is a single-line anchor with no
`start_line` — because `if line_end and ...` treats `0` as absent. -/
theorem range_anchor_resolution_cex :
    resolveStart [3] [] 5 3 = some 3 ∧
    resolveEndCandidate [3] [] 5 0 = some 3 ∧
    (0 : Int) ≠ 3 ∧
    resolveReviewLine [3] [] 3 (some 0) 5 = some ⟨none, 3⟩ := by
  decide

/-- Witness for the amended C7 at a concrete swapped range. -/
theorem range_anchor_resolution_witness :
    resolveReviewLine [3, 9] [] 9 (some 2) 5 =
      some ⟨some (min (9 : Int) 3), max (9 : Int) 3⟩ ∧ min (9 : Int) 3 ≤ max (9 : Int) 3 :=
  (range_anchor_resolution [3, 9] [] 5 9 2 9 (by decide) (by decide) (by decide)).2
    3 (by decide)

theorem seenAcc_superset {seen : List (String × Int × String)} {issues : List RawIssue} :
    ∀ k ∈ seen, k ∈ seenAcc seen issues := by
  induction issues generalizing seen with
  | nil => intro k hk; exact hk
  | cons issue rest ih =>
    intro k hk
    rw [seenAcc]
    split
    · exact ih k hk
    · exact ih k (List.mem_cons_of_mem _ hk)

theorem mem_seenAcc_of_mem {seen : List (String × Int × String)} {issues : List RawIssue} :
    ∀ issue ∈ issues, issueKey issue ∈ seenAcc seen issues := by
  induction issues generalizing seen with
  | nil => intro _ h; cases h
  | cons hd rest ih =>
    intro issue hmem
    rcases List.mem_cons.mp hmem with heq | htail
    · subst heq
      rw [seenAcc]
      split
      · next hseen => exact seenAcc_superset _ hseen
      · exact seenAcc_superset _ (List.mem_cons_self _ _)
    · rw [seenAcc]
      split
      · exact ih issue htail
      · exact ih issue htail

theorem dedupGo_append (A B : List RawIssue) (seen : List (String × Int × String)) :
    dedupGo seen (A ++ B) = dedupGo seen A ++ dedupGo (seenAcc seen A) B := by
  induction A generalizing seen with
  | nil => simp [dedupGo, seenAcc]
  | cons hd rest ih =>
    rw [List.cons_append, dedupGo, dedupGo, seenAcc]
    split
    · exact ih seen
    · rw [List.cons_append, ih]

theorem dedupGo_nil_of_all_seen {B : List RawIssue} {seen : List (String × Int × String)}
    (h : ∀ issue ∈ B, issueKey issue ∈ seen) : dedupGo seen B = [] := by
  induction B with
  | nil => rfl
  | cons hd rest ih =>
    rw [dedupGo, if_pos (h hd (List.mem_cons_self _ _))]
    exact ih (fun issue hmem => h issue (List.mem_cons_of_mem _ hmem))

theorem dedupGo_sublist (L : List RawIssue) :
    ∀ seen, (dedupGo seen L).Sublist L := by
  induction L with
  | nil => intro seen; simp [dedupGo]
  | cons hd rest ih =>
    intro seen
    rw [dedupGo]
    split
    · exact (ih seen).trans (List.sublist_cons_self _ _)
    · exact (ih _).cons₂ hd

/-- Every input key is represented in the dedup output. -/
theorem dedupGo_key_covered {L : List RawIssue} :
    ∀ seen issue, issue ∈ L → issueKey issue ∉ seen →
      ∃ kept ∈ dedupGo seen L, issueKey kept = issueKey issue := by
  induction L with
  | nil => intro _ _ h; cases h
  | cons hd rest ih =>
    intro seen issue hmem hnot
    rw [dedupGo]
    by_cases hseen : issueKey hd ∈ seen
    · rw [if_pos hseen]
      rcases List.mem_cons.mp hmem with heq | htail
      · rw [heq] at hnot; exact absurd hseen hnot
      · exact ih seen issue htail hnot
    · rw [if_neg hseen]
      rcases List.mem_cons.mp hmem with heq | htail
      · exact ⟨hd, List.mem_cons_self _ _, by rw [heq]⟩
      · by_cases hkey : issueKey issue = issueKey hd
        · exact ⟨hd, List.mem_cons_self _ _, hkey.symm⟩
        · obtain ⟨kept, hk1, hk2⟩ := ih (issueKey hd :: seen) issue htail
            (by
              intro hc
              rcases List.mem_cons.mp hc with hc1 | hc2
              · exact hkey hc1
              · exact hnot hc2)
          exact ⟨kept, List.mem_cons_of_mem _ hk1, hk2⟩

/-- **C9**: `_deduplicate_issues` keeps the first occurrence per identity
key `(file, line, title[:30])`, is stable and order-preserving (its output
is a sublist of its input, and every input issue has a kept representative
with the same key), and deduplicating `L ++ L` yields the same list as
deduplicating `L` once. -/
theorem dedup_stable_idempotent :
    ∀ L : List RawIssue,
      (deduplicateIssues L).Sublist L ∧
      (∀ issue ∈ L, ∃ kept ∈ deduplicateIssues L, issueKey kept = issueKey issue) ∧
      deduplicateIssues (L ++ L) = deduplicateIssues L := by
  intro L
  refine ⟨dedupGo_sublist L [], ?_, ?_⟩
  · intro issue hmem
    exact dedupGo_key_covered [] issue hmem (by simp)
  · rw [deduplicateIssues, deduplicateIssues, dedupGo_append]
    rw [dedupGo_nil_of_all_seen (fun issue hmem => mem_seenAcc_of_mem issue hmem)]
    simp

/-- Witness for C9 on a concrete issue list. -/
theorem dedup_stable_idempotent_witness :
    ∃ kept ∈ deduplicateIssues
        [{ file := "a", line := 1, title := "t" },
         { file := "a", line := 1, title := "t" },
         { file := "b", line := 2, title := "u" }],
      issueKey kept = issueKey { file := "b", line := 2, title := "u" } :=
  (dedup_stable_idempotent
      [{ file := "a", line := 1, title := "t" },
       { file := "a", line := 1, title := "t" },
       { file := "b", line := 2, title := "u" }]).2.1
    { file := "b", line := 2, title := "u" } (by decide)

/-!
## Lemmas about the classification stage
-/

/-- Every category in every language's core-rule table is one of
`syntax`/`memory`/`security` — never `style`. -/
theorem coreRules_category_not_style (lang : String) (cr : String × List String)
    (hcr : cr ∈ langCoreRules lang) : cr.1 ≠ "style" := by
  rw [langCoreRules] at hcr
  split at hcr
  · fin_cases hcr <;> decide
  · split at hcr
    · fin_cases hcr <;> decide
    · split at hcr
      · fin_cases hcr <;> decide
      · split at hcr
        · fin_cases hcr <;> decide
        · split at hcr
          · fin_cases hcr <;> decide
          · cases hcr

/-- A core rule's category is never `style`. -/
theorem getRuleCategory_ne_style {rule lang : String}
    (h : isCoreRule rule lang = true) : getRuleCategory rule lang ≠ "style" := by
  rw [isCoreRule, List.any_eq_true] at h
  obtain ⟨cr, hmem, hpred⟩ := h
  have hsome : ((langCoreRules lang).find? (fun cr => cr.2.any (ruleMatches rule))).isSome := by
    rw [List.find?_isSome]
    exact ⟨cr, hmem, hpred⟩
  obtain ⟨found, hfound⟩ := Option.isSome_iff_exists.mp hsome
  rw [getRuleCategory, hfound]
  exact coreRules_category_not_style lang found (List.mem_of_find?_eq_some hfound)

/-- `classify_unknown_issue` never returns `style`. -/
theorem classifyUnknownIssue_ne_style (rule lang message : String) :
    classifyUnknownIssue rule lang message ≠ "style" := by
  rw [classifyUnknownIssue]
  split_ifs <;> decide

/-- `should_keep_issue` on a rule with no ignore-list match always keeps,
with a category other than `style`. -/
theorem shouldKeepIssue_not_ignored {rule lang : String} (sev : String)
    (hni : isIgnoredRule rule lang = false) :
    (shouldKeepIssue rule lang sev).1 = true ∧ (shouldKeepIssue rule lang sev).2 ≠ "style" := by
  rw [shouldKeepIssue]
  simp only [hni, Bool.false_eq_true, if_false]
  by_cases hcore : isCoreRule rule lang = true
  · rw [if_pos hcore]
    exact ⟨rfl, getRuleCategory_ne_style hcore⟩
  · rw [if_neg hcore]
    split <;> exact ⟨rfl, by decide⟩

/-- A non-ignored issue always survives `static_filter`'s per-issue
decision, with a non-style category. -/
theorem staticFilterStep_not_ignored (includeStyle : Bool) (issue : CodeIssue)
    (hni : isIgnoredRule issue.rule (issueLanguage issue) = false) :
    ∃ cat, cat ≠ "style" ∧
      staticFilterStep includeStyle issue = some { issue with category := cat } := by
  obtain ⟨hkeep, hcat⟩ := shouldKeepIssue_not_ignored issue.severity hni
  rw [staticFilterStep]
  simp only [hkeep, not_true, if_false, Bool.not_eq_true]
  set kc := shouldKeepIssue issue.rule (issueLanguage issue) issue.severity with hkc
  by_cases hunk : kc.2 = "unknown"
  · rw [if_pos hunk]
    set guessed := classifyUnknownIssue issue.rule (issueLanguage issue) issue.message with hg
    by_cases hgu : guessed ≠ "unknown"
    · rw [if_pos hgu]
      have hgs : guessed ≠ "style" := classifyUnknownIssue_ne_style _ _ _
      rw [if_pos (Or.inl hgs)]
      exact ⟨guessed, hgs, rfl⟩
    · rw [if_neg hgu]
      rw [if_pos (Or.inl hcat)]
      exact ⟨kc.2, hcat, rfl⟩
  · rw [if_neg hunk]
    rw [if_pos (Or.inl hcat)]
    exact ⟨kc.2, hcat, rfl⟩

/-- **C1**: an issue whose severity is error/critical and whose rule does
not match an ignore-list pattern for its language is always present in
`static_filter`'s output (with some non-style category), regardless of the
`include_style` flag and of whether the rule is in the core-rule table. -/
theorem critical_issue_never_dropped :
    ∀ (issues : List CodeIssue) (includeStyle : Bool) (issue : CodeIssue),
      issue ∈ issues →
      (issue.severity = "error" ∨ issue.severity = "critical") →
      isIgnoredRule issue.rule (issueLanguage issue) = false →
      ∃ cat, cat ≠ "style" ∧
        { issue with category := cat } ∈ staticFilter issues includeStyle := by
  intro issues includeStyle issue hmem _hsev hni
  obtain ⟨cat, hcat, hstep⟩ := staticFilterStep_not_ignored includeStyle issue hni
  refine ⟨cat, hcat, ?_⟩
  rw [staticFilter, List.mem_filterMap]
  exact ⟨issue, hmem, hstep⟩

/-- Witness for C1: a critical-severity issue with an unknown rule is kept
by the static filter even with `include_style = false`. -/
theorem critical_issue_never_dropped_witness :
    ∃ cat, cat ≠ "style" ∧
      ({ file := "a.py", line := 3, rule := "XYZ9", message := "m",
         severity := "critical", category := cat, language := "python" } : CodeIssue) ∈
        staticFilter
          [{ file := "a.py", line := 3, rule := "XYZ9", message := "m",
             severity := "critical", category := "unknown", language := "python" }] false :=
  critical_issue_never_dropped
    [{ file := "a.py", line := 3, rule := "XYZ9", message := "m",
       severity := "critical", category := "unknown", language := "python" }] false
    { file := "a.py", line := 3, rule := "XYZ9", message := "m",
      severity := "critical", category := "unknown", language := "python" }
    (by decide) (Or.inr rfl) (by decide)

/-- **C6**: the score-and-filter stage keeps a scored finding iff its
relevance and severity scores meet their thresholds and its confidence
meets the minimum (or the include-low-confidence override is set); a
finding with no score is kept iff its severity is critical/high; and a
failed batch gives every finding in it the neutral scores
relevance 0.5, severity 0.5, confidence 0.3 with truncated error text as
reasoning, filtering then proceeding on those values. -/
theorem score_filter_thresholds :
    ∀ (cfg : ScoringConfig) (oracle : ScoringOracle) (issues : List Bug),
      (issues ≠ [] →
        scoreAndFilter cfg true oracle issues =
          issues.filterMap (scoreKeepStep cfg (allScores cfg oracle issues))) ∧
      (∀ (issue : Bug) (sc : IssueScore),
        scoreMapGet (allScores cfg oracle issues) issue.id = some sc →
        ((scoreKeepStep cfg (allScores cfg oracle issues) issue).isSome = true ↔
          (sc.relevance_score ≥ cfg.relevance_threshold ∧
           sc.severity_score ≥ cfg.severity_threshold ∧
           (sc.confidence_score ≥ cfg.min_confidence ∨ cfg.include_low_confidence = true)))) ∧
      (∀ issue : Bug,
        scoreMapGet (allScores cfg oracle issues) issue.id = none →
        ((scoreKeepStep cfg (allScores cfg oracle issues) issue).isSome = true ↔
          (sevValue issue.severity = "critical" ∨ sevValue issue.severity = "high"))) ∧
      (∀ (batch : List Bug) (e : String), oracle batch = .error e →
        scoreBatch oracle batch = batch.map (fun issue =>
          { issue_id := issue.id
            relevance_score := mkRat 1 2
            severity_score := mkRat 1 2
            confidence_score := mkRat 3 10
            reasoning := "Scoring failed: " ++ strTake 50 e })) := by
  intro cfg oracle issues
  refine ⟨?_, ?_, ?_, ?_⟩
  · intro hne
    rw [scoreAndFilter, if_neg hne]
    simp
  · intro issue sc hsc
    rw [scoreKeepStep, hsc]
    simp only
    split
    · next hcond =>
      obtain ⟨h1, h2, h3⟩ := hcond
      simp only [Option.isSome_some, true_iff]
      exact ⟨h1, h2, h3.symm⟩
    · next hcond =>
      simp only [Option.isSome_none]
      constructor
      · intro hfalse; exact absurd hfalse (by decide)
      · intro hpass
        exact absurd ⟨hpass.1, hpass.2.1, hpass.2.2.symm⟩ hcond
  · intro issue hsc
    rw [scoreKeepStep, hsc]
    simp only
    split
    · next hsev => simp [hsev]
    · next hsev => simp [hsev]
  · intro batch e herr
    rw [scoreBatch, herr]

/-- Witness for C6: an oracle that fails on every batch assigns the neutral
scores, on which a medium-severity finding passes the default thresholds
and is kept. -/
theorem score_filter_thresholds_witness :
    scoreAndFilter {} true (fun _ => Except.error "boom")
        [{ id := "b1", severity := .medium, title := "T1", description := "D1",
           file := "f.py", line := 4 }] =
      [({ id := "b1", severity := .medium, title := "T1", description := "D1",
          file := "f.py", line := 4 } : Bug)].filterMap
        (scoreKeepStep {}
          (allScores {} (fun _ => Except.error "boom")
            [{ id := "b1", severity := .medium, title := "T1", description := "D1",
               file := "f.py", line := 4 }])) :=
  (score_filter_thresholds {} (fun _ => Except.error "boom")
      [{ id := "b1", severity := .medium, title := "T1", description := "D1",
         file := "f.py", line := 4 }]).1 (by decide)

/-!
## Lemmas about hunk-body lines in the parser
-/

theorem strStartsWith_iff {s p : String} :
    strStartsWith s p = true ↔ p.data <+: s.data := by
  rw [strStartsWith]
  exact List.isPrefixOf_iff_prefix

/-- A prefix of a prefix is a prefix. -/
theorem strStartsWith_trans {s p q : String} (hpq : p.data <+: q.data)
    (h : strStartsWith s q = true) : strStartsWith s p = true :=
  strStartsWith_iff.mpr (hpq.trans (strStartsWith_iff.mp h))

/-- A removed body line begins with `-`. -/
theorem remLine_head {line : String} (h : isRemLine line = true) :
    ∃ t, line.data = '-' :: t := by
  rw [isRemLine, Bool.and_eq_true] at h
  obtain ⟨rest, hrest⟩ := strStartsWith_iff.mp h.1
  exact ⟨rest, hrest.symm⟩

/-- An added body line begins with `+`. -/
theorem addLine_head {line : String} (h : isAddLine line = true) :
    ∃ t, line.data = '+' :: t := by
  rw [isAddLine, Bool.and_eq_true] at h
  obtain ⟨rest, hrest⟩ := strStartsWith_iff.mp h.1
  exact ⟨rest, hrest.symm⟩

/-- A removed line is dispatched to the hunk-body branch: none of the four
header tests fire on it. -/
theorem remLine_not_header {line : String} (h : isRemLine line = true) :
    strStartsWith line "diff --git" = false ∧ strStartsWith line "--- " = false ∧
    strStartsWith line "+++ " = false ∧ strStartsWith line "@@" = false := by
  obtain ⟨t, ht⟩ := remLine_head h
  have hnot3 : strStartsWith line "---" = false := by
    rw [isRemLine, Bool.and_eq_true] at h
    simpa using h.2
  refine ⟨?_, ?_, ?_, ?_⟩
  · by_contra hc
    obtain ⟨r, hr⟩ := strStartsWith_iff.mp (by simpa using hc)
    rw [ht] at hr
    simp at hr
  · by_contra hc
    have : strStartsWith line "---" = true :=
      strStartsWith_trans ⟨[' '], rfl⟩ (by simpa using hc)
    rw [this] at hnot3
    cases hnot3
  · by_contra hc
    obtain ⟨r, hr⟩ := strStartsWith_iff.mp (by simpa using hc)
    rw [ht] at hr
    simp at hr
  · by_contra hc
    obtain ⟨r, hr⟩ := strStartsWith_iff.mp (by simpa using hc)
    rw [ht] at hr
    simp at hr

/-- An added line is dispatched to the hunk-body branch. -/
theorem addLine_not_header {line : String} (h : isAddLine line = true) :
    strStartsWith line "diff --git" = false ∧ strStartsWith line "--- " = false ∧
    strStartsWith line "+++ " = false ∧ strStartsWith line "@@" = false := by
  obtain ⟨t, ht⟩ := addLine_head h
  have hnot3 : strStartsWith line "+++" = false := by
    rw [isAddLine, Bool.and_eq_true] at h
    simpa using h.2
  refine ⟨?_, ?_, ?_, ?_⟩
  · by_contra hc
    obtain ⟨r, hr⟩ := strStartsWith_iff.mp (by simpa using hc)
    rw [ht] at hr
    simp at hr
  · by_contra hc
    obtain ⟨r, hr⟩ := strStartsWith_iff.mp (by simpa using hc)
    rw [ht] at hr
    simp at hr
  · by_contra hc
    have : strStartsWith line "+++" = true :=
      strStartsWith_trans ⟨[' '], rfl⟩ (by simpa using hc)
    rw [this] at hnot3
    cases hnot3
  · by_contra hc
    obtain ⟨r, hr⟩ := strStartsWith_iff.mp (by simpa using hc)
    rw [ht] at hr
    simp at hr

/-- A removed line is not an added line. -/
theorem remLine_not_add {line : String} (h : isRemLine line = true) :
    isAddLine line = false := by
  obtain ⟨t, ht⟩ := remLine_head h
  rw [isAddLine]
  suffices hs : strStartsWith line "+" = false by simp [hs]
  by_contra hc
  obtain ⟨r, hr⟩ := strStartsWith_iff.mp (by simpa using hc)
  rw [ht] at hr
  simp at hr

/-- Effect of one parser step on a removed line while a hunk is open: the
line is recorded in `removed_lines` with the *current* new-line counter,
the file's deletion count grows, and the counter is *not* advanced. -/
theorem parseStep_remLine {s : ParseState} {h : DiffHunk} {line : String}
    (hh : s.curHunk = some h) (hrem : isRemLine line = true) :
    parseStep s line =
      { s with
        curHunk := some { h with
          removed_lines := h.removed_lines ++ [(s.newLineNum, strDrop 1 line)]
          content := h.content ++ "\n" ++ line }
        curFile := s.curFile.map (fun wf => { wf with deletions := wf.deletions + 1 }) } := by
  obtain ⟨h1, h2, h3, h4⟩ := remLine_not_header hrem
  rw [parseStep]
  simp only [h1, h2, h3, h4, Bool.false_eq_true, if_false, hh,
    remLine_not_add hrem, hrem, if_true]

/-- Effect of one parser step on an added line while a hunk is open: the
line is recorded in `added_lines` with the current counter, the file's
addition count grows, and the counter advances by one. -/
theorem parseStep_addLine {s : ParseState} {h : DiffHunk} {line : String}
    (hh : s.curHunk = some h) (hadd : isAddLine line = true) :
    parseStep s line =
      { s with
        curHunk := some { h with
          added_lines := h.added_lines ++ [(s.newLineNum, strDrop 1 line)]
          content := h.content ++ "\n" ++ line }
        curFile := s.curFile.map (fun wf => { wf with additions := wf.additions + 1 })
        newLineNum := s.newLineNum + 1 } := by
  obtain ⟨h1, h2, h3, h4⟩ := addLine_not_header hadd
  rw [parseStep]
  simp only [h1, h2, h3, h4, Bool.false_eq_true, if_false, hh, hadd, if_true]

/-- Folding the parser over a run of removed lines: all of them are
recorded with the same (unchanged) new-line counter, and `added_lines` is
untouched. -/
theorem foldl_remLines {mid : List String} :
    ∀ (s : ParseState) (h : DiffHunk), s.curHunk = some h →
    (∀ l ∈ mid, isRemLine l = true) →
    (mid.foldl parseStep s).newLineNum = s.newLineNum ∧
    ∃ c, (mid.foldl parseStep s).curHunk = some { h with
      content := c
      removed_lines := h.removed_lines ++ mid.map (fun l => (s.newLineNum, strDrop 1 l)) } := by
  induction mid with
  | nil =>
    intro s h hh _
    exact ⟨rfl, h.content, by simpa using hh⟩
  | cons l rest ih =>
    intro s h hh hmid
    set h' : DiffHunk := { h with
      removed_lines := h.removed_lines ++ [(s.newLineNum, strDrop 1 l)]
      content := h.content ++ "\n" ++ l } with hh'
    set s' : ParseState := { s with
      curHunk := some h'
      curFile := s.curFile.map (fun wf => { wf with deletions := wf.deletions + 1 }) } with hs'
    have hstep : parseStep s l = s' := parseStep_remLine hh (hmid l (List.mem_cons_self _ _))
    obtain ⟨hnum, c, hcur⟩ := ih s' h' rfl (fun x hx => hmid x (List.mem_cons_of_mem _ hx))
    rw [List.foldl_cons, hstep]
    have hnum2 : s'.newLineNum = s.newLineNum := rfl
    refine ⟨by rw [hnum, hnum2], c, ?_⟩
    rw [hcur]
    simp [hh', hs', List.append_assoc]

/-- **C2**: a removed line in a hunk body is recorded in `removed_lines`
paired with the current new-line counter and the counter is not advanced;
consequently, after any further run of removed lines, the next added line
is recorded with the *same* new-line number, and a next context line
advances the counter *from* that same number (it occupies it). -/
theorem removed_line_records_current_counter :
    ∀ (s : ParseState) (h : DiffHunk) (remLine : String) (mid : List String),
      s.curHunk = some h →
      isRemLine remLine = true →
      (∀ l ∈ mid, isRemLine l = true) →
      ∃ (h1 : DiffHunk),
        ((remLine :: mid).foldl parseStep s).curHunk = some h1 ∧
        ((remLine :: mid).foldl parseStep s).newLineNum = s.newLineNum ∧
        h1.removed_lines = h.removed_lines ++
          (s.newLineNum, strDrop 1 remLine) ::
            mid.map (fun l => (s.newLineNum, strDrop 1 l)) ∧
        h1.added_lines = h.added_lines ∧
        (∀ addLine, isAddLine addLine = true →
          ∃ h2, (parseStep ((remLine :: mid).foldl parseStep s) addLine).curHunk = some h2 ∧
            h2.added_lines = h.added_lines ++ [(s.newLineNum, strDrop 1 addLine)]) ∧
        (∀ ctxLine, isAddLine ctxLine = false → isRemLine ctxLine = false →
          strStartsWith ctxLine "diff --git" = false →
          strStartsWith ctxLine "--- " = false →
          strStartsWith ctxLine "+++ " = false →
          strStartsWith ctxLine "@@" = false →
          strStartsWith ctxLine "\\" = false →
          (parseStep ((remLine :: mid).foldl parseStep s) ctxLine).newLineNum =
            s.newLineNum + 1) := by
  intro s h remLine mid hh hrem hmid
  set h' : DiffHunk := { h with
    removed_lines := h.removed_lines ++ [(s.newLineNum, strDrop 1 remLine)]
    content := h.content ++ "\n" ++ remLine } with hh'
  set s' : ParseState := { s with
    curHunk := some h'
    curFile := s.curFile.map (fun wf => { wf with deletions := wf.deletions + 1 }) } with hs'
  have hstep : parseStep s remLine = s' := parseStep_remLine hh hrem
  have hfold : (remLine :: mid).foldl parseStep s = mid.foldl parseStep s' := by
    rw [List.foldl_cons, hstep]
  obtain ⟨hnum, c, hcur⟩ := foldl_remLines s' h' rfl hmid
  have hs'num : s'.newLineNum = s.newLineNum := rfl
  have hcur2 : ((remLine :: mid).foldl parseStep s).curHunk = some { h' with
      content := c
      removed_lines := h'.removed_lines ++ mid.map (fun l => (s'.newLineNum, strDrop 1 l)) } := by
    rw [hfold]; exact hcur
  have hnum2 : ((remLine :: mid).foldl parseStep s).newLineNum = s.newLineNum := by
    rw [hfold, hnum, hs'num]
  have hnumStep : (List.foldl parseStep (parseStep s remLine) mid).newLineNum = s.newLineNum := by
    rw [hstep, hnum, hs'num]
  refine ⟨_, hcur2, hnum2, ?_, ?_, ?_, ?_⟩
  · simp [hh', hs'num, List.append_assoc]
  · simp [hh']
  · intro addLine hadd
    have hstepAdd := parseStep_addLine hcur2 hadd
    refine ⟨_, by rw [hstepAdd], ?_⟩
    simp [hh', hnum2, hnumStep]
  · intro ctxLine hca hcr hc1 hc2 hc3 hc4 hc5
    rw [parseStep]
    simp only [hc1, hc2, hc3, hc4, Bool.false_eq_true, if_false]
    rw [hcur2]
    simp only [hca, hcr, Bool.false_eq_true, if_false]
    simp [hc5, hnum2, hnumStep]

/-- Witness for C2 at a concrete state: one removed then one added line. -/
theorem removed_line_records_current_counter_witness :
    ∃ (h1 : DiffHunk),
      (["-old"].foldl parseStep
        { initState with
          curHunk := some ⟨3, 2, 3, 2, "@@ -3,2 +3,2 @@", [], []⟩
          newLineNum := 3 }).curHunk = some h1 ∧
      (["-old"].foldl parseStep
        { initState with
          curHunk := some ⟨3, 2, 3, 2, "@@ -3,2 +3,2 @@", [], []⟩
          newLineNum := 3 }).newLineNum = 3 ∧
      h1.removed_lines = [] ++ (3, strDrop 1 "-old") :: List.map (fun l => (3, strDrop 1 l)) [] ∧
      h1.added_lines = [] ∧
      (∀ addLine, isAddLine addLine = true →
        ∃ h2, (parseStep (["-old"].foldl parseStep
            { initState with
              curHunk := some ⟨3, 2, 3, 2, "@@ -3,2 +3,2 @@", [], []⟩
              newLineNum := 3 }) addLine).curHunk = some h2 ∧
          h2.added_lines = [] ++ [(3, strDrop 1 addLine)]) ∧
      (∀ ctxLine, isAddLine ctxLine = false → isRemLine ctxLine = false →
        strStartsWith ctxLine "diff --git" = false →
        strStartsWith ctxLine "--- " = false →
        strStartsWith ctxLine "+++ " = false →
        strStartsWith ctxLine "@@" = false →
        strStartsWith ctxLine "\\" = false →
        (parseStep (["-old"].foldl parseStep
            { initState with
              curHunk := some ⟨3, 2, 3, 2, "@@ -3,2 +3,2 @@", [], []⟩
              newLineNum := 3 }) ctxLine).newLineNum = 3 + 1) :=
  removed_line_records_current_counter
    { initState with
      curHunk := some ⟨3, 2, 3, 2, "@@ -3,2 +3,2 @@", [], []⟩
      newLineNum := 3 }
    ⟨3, 2, 3, 2, "@@ -3,2 +3,2 @@", [], []⟩ "-old" [] rfl (by decide)
    (by intro l hl; cases hl)

/-- **C5**: evaluation of `parse_unified_diff` at the failing input.  A
line starting with `@@` that fails the hunk-header pattern is reached with
a hunk open: the open hunk is appended to `current_file.hunks` at that line
but `current_hunk` is not cleared, so the same hunk (still accumulating) is
appended *again* at the final flush — it appears twice, while with the
malformed line absent it appears once.  This contradicts the claimed
behaviour that the file merely "accumulates fewer hunks" with the remaining
hunks as if the malformed header were absent, each appearing once. -/
theorem malformed_hunk_header_duplicates_open_hunk :
    parseUnifiedDiff "diff --git a/f b/f\n@@ -1 +1 @@\n+x\n@@ bad" =
      [{ filename := "f", status := "modified", additions := 1, deletions := 0,
         hunks := [⟨1, 1, 1, 1, "@@ -1 +1 @@\n+x", [(1, "x")], []⟩,
                   ⟨1, 1, 1, 1, "@@ -1 +1 @@\n+x", [(1, "x")], []⟩],
         old_filename := none }] ∧
    parseUnifiedDiff "diff --git a/f b/f\n@@ -1 +1 @@\n+x" =
      [{ filename := "f", status := "modified", additions := 1, deletions := 0,
         hunks := [⟨1, 1, 1, 1, "@@ -1 +1 @@\n+x", [(1, "x")], []⟩],
         old_filename := none }] := by
  decide

theorem sumAdded_append (a b : List DiffHunk) :
    sumAdded (a ++ b) = sumAdded a + sumAdded b := by
  simp [sumAdded]

theorem sumRemoved_append (a b : List DiffHunk) :
    sumRemoved (a ++ b) = sumRemoved a + sumRemoved b := by
  simp [sumRemoved]

/-- One parser step on a line with well-formed headers preserves the
counting invariant. -/
theorem parseStep_countInv {s : ParseState} {line : String} (hinv : CountInv s)
    (hgoodHunk : strStartsWith line "@@" = true → (parseHunkHeader line).isSome = true)
    (hgoodGit : strStartsWith line "diff --git" = true → (parseGitHeader line).isSome = true) :
    CountInv (parseStep s line) := by
  obtain ⟨hff, hhf, hclosed, hcur⟩ := hinv
  rw [parseStep]
  by_cases hgit : strStartsWith line "diff --git" = true
  · obtain ⟨name, hname⟩ := Option.isSome_iff_exists.mp (hgoodGit hgit)
    simp only [hgit, if_true]
    cases hcf : s.curFile with
    | none =>
      simp only [hname]
      exact ⟨rfl, rfl, hclosed, by
        intro wf hwf
        cases hwf
        simp [sumAdded, sumRemoved]⟩
    | some wf =>
      simp only [hname]
      obtain ⟨hwfa, hwfd⟩ := hcur wf hcf
      refine ⟨rfl, rfl, ?_, ?_⟩
      · intro f hf
        rw [hff] at hf
        simp only [List.replicate_succ, List.replicate_zero] at hf
        rcases List.mem_append.mp hf with hf | hf
        · exact hclosed f hf
        · have : f = materializeFile wf s.curHunk
              (match s.curHunk with | some _ => s.curHunkFlushed + 1 | none => s.curHunkFlushed) := by
            simpa using hf
          subst this
          rw [materializeFile]
          cases hch : s.curHunk with
          | none =>
            simp only [hunksNow, hch]
            rw [hch] at hwfa hwfd
            simp only at hwfa hwfd
            constructor <;> simp [hwfa, hwfd]
          | some h =>
            simp only [hunksNow, hch, hhf, List.replicate_succ, List.replicate_zero]
            rw [hch] at hwfa hwfd
            simp only at hwfa hwfd
            constructor <;> simp [sumAdded_append, sumRemoved_append, hwfa, hwfd, sumAdded, sumRemoved]
      · intro wf2 hwf2
        cases hwf2
        simp [sumAdded, sumRemoved]
  · simp only [hgit, Bool.false_eq_true, if_false]
    by_cases hdash : strStartsWith line "--- " = true
    · simp only [hdash, if_true]
      cases hcf : s.curFile with
      | none => exact ⟨hff, hhf, hclosed, by intro wf hwf; rw [hwf] at hcf; cases hcf⟩
      | some wf =>
        by_cases hnull : line = "--- /dev/null"
        · simp only [if_pos hnull]
          refine ⟨hff, hhf, hclosed, ?_⟩
          intro wf2 hwf2
          simp only [Option.some_inj] at hwf2
          subst hwf2
          exact hcur wf hcf
        · simp only [if_neg hnull]
          exact ⟨hff, hhf, hclosed, hcur⟩
    · simp only [hdash, Bool.false_eq_true, if_false]
      by_cases hplus : strStartsWith line "+++ " = true
      · simp only [hplus, if_true]
        cases hcf : s.curFile with
        | none => exact ⟨hff, hhf, hclosed, by intro wf hwf; rw [hwf] at hcf; cases hcf⟩
        | some wf =>
          by_cases hnull : line = "+++ /dev/null"
          · simp only [if_pos hnull]
            refine ⟨hff, hhf, hclosed, ?_⟩
            intro wf2 hwf2
            simp only [Option.some_inj] at hwf2
            subst hwf2
            exact hcur wf hcf
          · simp only [if_neg hnull]
            exact ⟨hff, hhf, hclosed, hcur⟩
      · simp only [hplus, Bool.false_eq_true, if_false]
        by_cases hat : strStartsWith line "@@" = true
        · obtain ⟨quad, hquad⟩ := Option.isSome_iff_exists.mp (hgoodHunk hat)
          obtain ⟨os, oc, ns, nc⟩ := quad
          simp only [hat, if_true, hquad]
          cases hcf : s.curFile with
          | none =>
            cases hch : s.curHunk with
            | none =>
              simp only [hcf, hch]
              refine ⟨hff, rfl, hclosed, ?_⟩
              intro wf2 hwf2
              simp only [hcf] at hwf2
              cases hwf2
            | some h =>
              simp only [hcf, hch]
              refine ⟨hff, rfl, hclosed, ?_⟩
              intro wf2 hwf2
              simp only [hcf] at hwf2
              cases hwf2
          | some wf =>
            cases hch : s.curHunk with
            | none =>
              simp only [hcf, hch]
              refine ⟨hff, rfl, hclosed, ?_⟩
              intro wf2 hwf2
              simp only [hcf, Option.some_inj] at hwf2
              subst hwf2
              obtain ⟨hwfa, hwfd⟩ := hcur wf hcf
              rw [hch] at hwfa hwfd
              simp only at hwfa hwfd
              constructor <;> simp [hwfa, hwfd]
            | some h =>
              simp only [hcf, hch]
              refine ⟨hff, rfl, hclosed, ?_⟩
              intro wf2 hwf2
              simp only [Option.some_inj] at hwf2
              subst hwf2
              obtain ⟨hwfa, hwfd⟩ := hcur wf hcf
              rw [hch] at hwfa hwfd
              simp only at hwfa hwfd
              rw [hhf]
              simp only [List.replicate_succ, List.replicate_zero]
              constructor <;>
                simp [sumAdded_append, sumRemoved_append, hwfa, hwfd, sumAdded, sumRemoved]
        · simp only [hat, Bool.false_eq_true, if_false]
          cases hch : s.curHunk with
          | none => exact ⟨hff, hhf, hclosed, hcur⟩
          | some h =>
            by_cases hadd : isAddLine line = true
            · simp only [hadd, if_true]
              refine ⟨hff, hhf, hclosed, ?_⟩
              intro wf2 hwf2
              cases hcf : s.curFile with
              | none => rw [hcf] at hwf2; cases hwf2
              | some wf =>
                rw [hcf] at hwf2
                simp only [Option.map_some] at hwf2
                cases hwf2
                obtain ⟨hwfa, hwfd⟩ := hcur wf hcf
                rw [hch] at hwfa hwfd
                simp only at hwfa hwfd
                constructor <;> simp [hwfa, hwfd] <;> omega
            · simp only [hadd, Bool.false_eq_true, if_false]
              by_cases hrem : isRemLine line = true
              · simp only [hrem, if_true]
                refine ⟨hff, hhf, hclosed, ?_⟩
                intro wf2 hwf2
                cases hcf : s.curFile with
                | none => rw [hcf] at hwf2; cases hwf2
                | some wf =>
                  rw [hcf] at hwf2
                  simp only [Option.map_some] at hwf2
                  cases hwf2
                  obtain ⟨hwfa, hwfd⟩ := hcur wf hcf
                  rw [hch] at hwfa hwfd
                  simp only at hwfa hwfd
                  constructor <;> simp [hwfa, hwfd] <;> omega
              · simp only [hrem, Bool.false_eq_true, if_false]
                refine ⟨hff, hhf, hclosed, ?_⟩
                intro wf2 hwf2
                simp only at hwf2
                obtain ⟨hwfa, hwfd⟩ := hcur wf2 hwf2
                rw [hch] at hwfa hwfd
                simp only at hwfa hwfd
                constructor <;> simp [hwfa, hwfd]

/-- The counting invariant holds after folding over any well-formed-header
line list. -/
theorem foldl_countInv {lines : List String} :
    ∀ s : ParseState, CountInv s → wellFormedHeaders lines →
      CountInv (lines.foldl parseStep s) := by
  induction lines with
  | nil => intro s hs _; exact hs
  | cons l rest ih =>
    intro s hs hwf
    rw [List.foldl_cons]
    exact ih _
      (parseStep_countInv hs (hwf l (List.mem_cons_self _ _)).1 (hwf l (List.mem_cons_self _ _)).2)
      (fun x hx => hwf x (List.mem_cons_of_mem _ hx))

/-- On a state satisfying the counting invariant, every finalized file's
counters equal its hunk sums. -/
theorem finalizeState_counts {s : ParseState} (hinv : CountInv s) :
    ∀ f ∈ finalizeState s, f.additions = sumAdded f.hunks ∧ f.deletions = sumRemoved f.hunks := by
  obtain ⟨hff, hhf, hclosed, hcur⟩ := hinv
  intro f hf
  rw [finalizeState] at hf
  cases hcf : s.curFile with
  | none =>
    rw [hcf] at hf
    exact hclosed f hf
  | some wf =>
    rw [hcf] at hf
    simp only [hff, List.replicate_succ, List.replicate_zero] at hf
    rcases List.mem_append.mp hf with hf | hf
    · exact hclosed f hf
    · have hfeq : f = materializeFile wf s.curHunk
          (match s.curHunk with | some _ => s.curHunkFlushed + 1 | none => s.curHunkFlushed) := by
        simpa using hf
      subst hfeq
      obtain ⟨hwfa, hwfd⟩ := hcur wf hcf
      rw [materializeFile]
      cases hch : s.curHunk with
      | none =>
        simp only [hunksNow, hch]
        rw [hch] at hwfa hwfd
        simp only at hwfa hwfd
        constructor <;> simp [hwfa, hwfd]
      | some h =>
        simp only [hunksNow, hch, hhf, List.replicate_succ, List.replicate_zero]
        rw [hch] at hwfa hwfd
        simp only at hwfa hwfd
        constructor <;>
          simp [sumAdded_append, sumRemoved_append, hwfa, hwfd, sumAdded, sumRemoved]

/-- **C4** (amended): the `ParsedDiff` totals are taken solely from the
externally supplied `files_changed.json` statistics (0 when the file is
absent) and never from the parsed per-file counts; and on diff text whose
`@@` and `diff --git` lines are all well formed, each `FileDiff`'s
`additions`/`deletions` equals the total number of added/removed body lines
across that file's hunks. -/
theorem per_file_counts_and_totals :
    (∀ (filesChanged : Option (List FileChangedInfo)) (diffText : Option String),
      (parsePRFolder filesChanged diffText).total_additions =
        (match filesChanged with
          | some infos => (infos.map (·.additions)).sum
          | none => 0) ∧
      (parsePRFolder filesChanged diffText).total_deletions =
        (match filesChanged with
          | some infos => (infos.map (·.deletions)).sum
          | none => 0)) ∧
    (∀ (filesChanged : Option (List FileChangedInfo)) (text : String),
      wellFormedHeaders (splitLines text) →
      ∀ f ∈ (parsePRFolder filesChanged (some text)).files,
        f.additions = sumAdded f.hunks ∧ f.deletions = sumRemoved f.hunks) := by
  constructor
  · intro filesChanged diffText
    cases filesChanged <;> exact ⟨rfl, rfl⟩
  · intro filesChanged text hwf f hf
    have hmem : f ∈ parseUnifiedDiff text := hf
    rw [parseUnifiedDiff, parseLines] at hmem
    exact finalizeState_counts
      (foldl_countInv initState
        (by
          refine ⟨rfl, rfl, ?_, ?_⟩
          · intro f2 hfm; cases hfm
          · intro wf hwf2; cases hwf2) hwf)
      f hmem

/-- Counterexample for C4 as stated: without `files_changed.json` the
totals are 0 even though the parsed per-file additions sum to 1 — the
totals are not the sum of per-file counts, and the parsed counts never
cross-check them. -/
theorem per_file_counts_and_totals_cex :
    (parsePRFolder none (some "diff --git a/f b/f\n@@ -1 +1 @@\n+x")).total_additions = 0 ∧
    ((parsePRFolder none
        (some "diff --git a/f b/f\n@@ -1 +1 @@\n+x")).files.map (·.additions)).sum = 1 := by
  decide

/-- Witness for the amended C4 on a concrete well-formed diff. -/
theorem per_file_counts_and_totals_witness :
    ∀ f ∈ (parsePRFolder (some [⟨2, 1⟩])
        (some "diff --git a/f b/f\n@@ -1,2 +1,3 @@\n line1\n+line2new\n line2")).files,
      f.additions = sumAdded f.hunks ∧ f.deletions = sumRemoved f.hunks :=
  per_file_counts_and_totals.2 (some [⟨2, 1⟩])
    "diff --git a/f b/f\n@@ -1,2 +1,3 @@\n line1\n+line2new\n line2"
    (by
      intro l hl
      fin_cases hl <;> exact ⟨by decide, by decide⟩)

/-!
## Lemmas about comment merging
-/

theorem sublistOccurs_cons {pat t : List Char} (c : Char)
    (h : sublistOccurs pat t = true) : sublistOccurs pat (c :: t) = true := by
  rw [sublistOccurs]
  simp [h]

theorem sublistOccurs_self_append (pat v : List Char) :
    sublistOccurs pat (pat ++ v) = true := by
  have hpre : pat.isPrefixOf (pat ++ v) = true :=
    List.isPrefixOf_iff_prefix.mpr (List.prefix_append _ _)
  cases hc : pat ++ v with
  | nil => rw [sublistOccurs]; rwa [hc] at hpre
  | cons c t => rw [sublistOccurs]; rw [hc] at hpre; simp [hpre]

theorem sublistOccurs_of_append (pat : List Char) :
    ∀ (u v : List Char), sublistOccurs pat (u ++ pat ++ v) = true := by
  intro u
  induction u with
  | nil => intro v; simpa using sublistOccurs_self_append pat v
  | cons c rest ih => intro v; exact sublistOccurs_cons c (ih v)

/-- The Python substring test succeeds whenever the pattern literally
occurs. -/
theorem strContainsSub_of_eq_append {s sub : String} {u v : List Char}
    (h : s.data = u ++ sub.data ++ v) : strContainsSub s sub = true := by
  rw [strContainsSub, h]
  exact sublistOccurs_of_append _ u v

theorem joinLines_foldl_data (ps : List String) :
    ∀ a : String, (ps.foldl (fun acc q => acc ++ "\n" ++ q) a).data =
      a.data ++ ps.flatMap (fun q => '\n' :: q.data) := by
  induction ps with
  | nil => intro a; simp
  | cons p rest ih =>
    intro a
    rw [List.foldl_cons, ih]
    simp

/-- Every part of a joined body occurs literally inside it. -/
theorem joinLines_part_occurs {parts : List String} {part : String}
    (h : part ∈ parts) : ∃ u v, (joinLines parts).data = u ++ part.data ++ v := by
  cases parts with
  | nil => cases h
  | cons p ps =>
    rw [joinLines, joinLines_foldl_data]
    rcases List.mem_cons.mp h with heq | htail
    · subst heq
      exact ⟨[], ps.flatMap (fun q => '\n' :: q.data), by simp⟩
    · obtain ⟨s1, s2, hsplit⟩ := List.append_of_mem htail
      subst hsplit
      refine ⟨p.data ++ s1.flatMap (fun q => '\n' :: q.data) ++ ['\n'],
        s2.flatMap (fun q => '\n' :: q.data), ?_⟩
      simp

/-- Every member of a list is enumerated with some index. -/
theorem exists_mem_enumFrom {group : List Bug} {bug : Bug} (h : bug ∈ group) :
    ∀ n : Nat, ∃ i, (i, bug) ∈ List.enumFrom n group := by
  induction group with
  | nil => cases h
  | cons g rest ih =>
    intro n
    rcases List.mem_cons.mp h with heq | htail
    · subst heq
      exact ⟨n, List.mem_cons_self _ _⟩
    · obtain ⟨i, hi⟩ := ih htail (n + 1)
      exact ⟨i, List.mem_cons_of_mem _ hi⟩

/-- The merged comment body contains each contributing bug's title as a
substring (Python `in`): the single-bug body leads with
`**SEV**: title`, the merged body enumerates `### i. [SEV] title`
sections. -/
theorem mergedBody_contains_title {group : List Bug} {bug : Bug} (h : bug ∈ group) :
    strContainsSub (mergedBody group) bug.title = true := by
  rcases group with _ | ⟨b, rest⟩
  · cases h
  rcases rest with _ | ⟨b2, rest2⟩
  · have hbe : bug = b := by simpa using h
    subst hbe
    rw [mergedBody]
    have hpart : ("**" ++ strUpper (sevValue bug.severity) ++ "**: " ++ bug.title) ∈
        singleBugParts bug := by
      rw [singleBugParts]
      exact List.mem_cons_self _ _
    obtain ⟨u, v, hsplit⟩ := joinLines_part_occurs hpart
    refine strContainsSub_of_eq_append
      (u := u ++ ("**" ++ strUpper (sevValue bug.severity) ++ "**: ").data) (v := v) ?_
    rw [hsplit]
    simp
  · obtain ⟨i, hi⟩ := exists_mem_enumFrom h 1
    rw [mergedBody]
    have hsec : ("### " ++ natStr i ++ ". [" ++ strUpper (sevValue bug.severity) ++ "] " ++
        bug.title) ∈ mergedBugSection i bug := by
      rw [mergedBugSection]
      exact List.mem_cons_self _ _
    have hflat : ("### " ++ natStr i ++ ". [" ++ strUpper (sevValue bug.severity) ++ "] " ++
        bug.title) ∈ (List.enumFrom 1 (b :: b2 :: rest2)).flatMap
          (fun ib => mergedBugSection ib.1 ib.2) := by
      rw [List.mem_flatMap]
      exact ⟨(i, bug), hi, hsec⟩
    have hparts : ("### " ++ natStr i ++ ". [" ++ strUpper (sevValue bug.severity) ++ "] " ++
        bug.title) ∈
        ("**" ++ natStr (b :: b2 :: rest2).length ++ " issues found on this line:**") :: "" ::
          (List.enumFrom 1 (b :: b2 :: rest2)).flatMap (fun ib => mergedBugSection ib.1 ib.2) :=
      List.mem_cons_of_mem _ (List.mem_cons_of_mem _ hflat)
    obtain ⟨u, v, hsplit⟩ := joinLines_part_occurs hparts
    refine strContainsSub_of_eq_append
      (u := u ++ ("### " ++ natStr i ++ ". [" ++ strUpper (sevValue bug.severity) ++ "] ").data)
      (v := v) ?_
    rw [hsplit]
    simp
    -- side goal of the match on `mergedBody`: the group is not a singleton
    intro x hx
    simp at hx

theorem lookupGroups_insert (groups : List ((String × Int) × List Bug))
    (loc loc2 : String × Int) (bug : Bug) :
    lookupGroups (insertByLocation groups loc bug) loc2 =
      if loc2 = loc then some (((lookupGroups groups loc).getD []) ++ [bug])
      else lookupGroups groups loc2 := by
  induction groups with
  | nil =>
    by_cases h : loc2 = loc
    · subst h
      simp [insertByLocation, lookupGroups, List.find?]
    · have hne : (decide (loc = loc2)) = false := by
        simp only [decide_eq_false_iff_not]
        exact fun hc => h hc.symm
      rw [if_neg h]
      simp [insertByLocation, lookupGroups, List.find?, hne]
  | cons g rest ih =>
    rw [insertByLocation]
    by_cases hg : g.1 = loc
    · rw [if_pos hg]
      by_cases h2 : loc2 = loc
      · subst h2
        rw [if_pos rfl]
        have hgt : (decide (g.1 = loc2)) = true := by simp [hg]
        simp [lookupGroups, List.find?, hgt]
      · rw [if_neg h2]
        have hgne : (decide (g.1 = loc2)) = false := by
          simp only [decide_eq_false_iff_not]
          intro hc
          exact h2 (by rw [← hc, hg])
        simp only [lookupGroups, List.find?, hgne]
    · rw [if_neg hg]
      by_cases h2 : loc2 = loc
      · subst h2
        rw [if_pos rfl]
        have hgne : (decide (g.1 = loc2)) = false := by simp [hg]
        simp only [lookupGroups, List.find?, hgne]
        have h3 := ih
        rw [if_pos rfl] at h3
        simpa only [lookupGroups] using h3
      · rw [if_neg h2]
        by_cases hgl : g.1 = loc2
        · have hgt : (decide (g.1 = loc2)) = true := by simp [hgl]
          simp [lookupGroups, List.find?, hgt]
        · have hgne : (decide (g.1 = loc2)) = false := by simp [hgl]
          simp only [lookupGroups, List.find?, hgne]
          have h3 := ih
          rw [if_neg h2] at h3
          simpa only [lookupGroups] using h3

theorem lookupGroups_eq_none_iff (groups : List ((String × Int) × List Bug))
    (loc : String × Int) :
    lookupGroups groups loc = none ↔ loc ∉ groups.map Prod.fst := by
  rw [lookupGroups, Option.map_eq_none', List.find?_eq_none]
  constructor
  · intro h hc
    obtain ⟨g, hg, hkey⟩ := List.mem_map.mp hc
    exact absurd (by simpa using hkey) (by simpa using h g hg)
  · intro h g hg
    simp only [decide_eq_true_eq]
    intro hc
    exact h (List.mem_map.mpr ⟨g, hg, hc⟩)

theorem keys_insert (groups : List ((String × Int) × List Bug)) (loc : String × Int)
    (bug : Bug) :
    (insertByLocation groups loc bug).map Prod.fst =
      if loc ∈ groups.map Prod.fst then groups.map Prod.fst
      else groups.map Prod.fst ++ [loc] := by
  induction groups with
  | nil => simp [insertByLocation]
  | cons g rest ih =>
    rw [insertByLocation]
    by_cases hg : g.1 = loc
    · rw [if_pos hg]
      have : loc ∈ (g :: rest).map Prod.fst := by
        simp only [List.map_cons, List.mem_cons]
        exact Or.inl hg.symm
      rw [if_pos this]
      simp
    · rw [if_neg hg]
      by_cases hmem : loc ∈ rest.map Prod.fst
      · have : loc ∈ (g :: rest).map Prod.fst := by
          simp only [List.map_cons, List.mem_cons]
          exact Or.inr hmem
        rw [if_pos this]
        simp only [List.map_cons, ih, if_pos hmem]
      · have : loc ∉ (g :: rest).map Prod.fst := by
          simp only [List.map_cons, List.mem_cons]
          rintro (hc | hc)
          · exact hg hc.symm
          · exact hmem hc
        rw [if_neg this]
        simp only [List.map_cons, ih, if_neg hmem, List.cons_append]

theorem nodup_keys_insert {groups : List ((String × Int) × List Bug)}
    (hnd : (groups.map Prod.fst).Nodup) (loc : String × Int) (bug : Bug) :
    ((insertByLocation groups loc bug).map Prod.fst).Nodup := by
  rw [keys_insert]
  by_cases hmem : loc ∈ groups.map Prod.fst
  · rwa [if_pos hmem]
  · rw [if_neg hmem]
    simp [List.nodup_append, hnd, hmem]

theorem filter_key_of_nodup {groups : List ((String × Int) × List Bug)}
    (hnd : (groups.map Prod.fst).Nodup) (loc : String × Int) :
    groups.filter (fun g => g.1 = loc) =
      match groups.find? (fun g => g.1 = loc) with
      | some g => [g]
      | none => [] := by
  induction groups with
  | nil => simp [List.find?]
  | cons g rest ih =>
    simp only [List.map_cons, List.nodup_cons] at hnd
    by_cases hg : g.1 = loc
    · have hgt : (decide (g.1 = loc)) = true := by simp [hg]
      rw [List.filter_cons, List.find?]
      simp only [hgt, if_true]
      have hrest : rest.filter (fun g => g.1 = loc) = [] := by
        rw [List.filter_eq_nil]
        intro g2 hg2
        simp only [decide_eq_true_eq]
        intro hc
        exact hnd.1 (by rw [hg, ← hc]; exact List.mem_map.mpr ⟨g2, hg2, rfl⟩)
      rw [hrest]
    · have hgf : (decide (g.1 = loc)) = false := by simp [hg]
      rw [List.filter_cons, List.find?]
      simp only [hgf, Bool.false_eq_true, if_false]
      exact ih hnd.2

theorem optExtend_nil (o : Option (List Bug)) : optExtend o [] = o := by
  cases o <;> simp [optExtend]

theorem groupBugsStep_skip (validLines : Option (List (String × Int)))
    (acc : List ((String × Int) × List Bug) × List Bug) (b : Bug)
    (hskip : b.file = "" ∨ b.line ≤ 0) :
    groupBugsStep validLines acc b = acc := by
  rw [groupBugsStep, if_pos hskip]

theorem groupBugsStep_grouped (validLines : Option (List (String × Int)))
    (acc : List ((String × Int) × List Bug) × List Bug) (b : Bug)
    (hskip : ¬(b.file = "" ∨ b.line ≤ 0))
    (hin : inDiffTest validLines (b.file, b.line) = true) :
    groupBugsStep validLines acc b = (insertByLocation acc.1 (b.file, b.line) b, acc.2) := by
  rw [groupBugsStep, if_neg hskip]
  cases validLines with
  | none => simp
  | some vl =>
    simp only [inDiffTest, decide_eq_true_eq] at hin
    simp [hin]

theorem groupBugsStep_offdiff (vl : List (String × Int))
    (acc : List ((String × Int) × List Bug) × List Bug) (b : Bug)
    (hskip : ¬(b.file = "" ∨ b.line ≤ 0)) (hout : (b.file, b.line) ∉ vl) :
    groupBugsStep (some vl) acc b = (acc.1, acc.2 ++ [b]) := by
  rw [groupBugsStep, if_neg hskip]
  simp [hout]

/-- The group stored at the key `(f, l)` after the grouping fold is exactly
the run of bugs that anchor there, appended in input order. -/
theorem groupBugs_foldl_lookup (validLines : Option (List (String × Int)))
    (f : String) (l : Int) :
    ∀ (bugs : List Bug) (acc : List ((String × Int) × List Bug) × List Bug),
      lookupGroups (bugs.foldl (groupBugsStep validLines) acc).1 (f, l) =
        optExtend (lookupGroups acc.1 (f, l)) (bugs.filter (anchorTest validLines f l)) := by
  intro bugs
  induction bugs with
  | nil => intro acc; simp [optExtend_nil]
  | cons b rest ih =>
    intro acc
    rw [List.foldl_cons, List.filter_cons]
    by_cases hskip : b.file = "" ∨ b.line ≤ 0
    · have htest : anchorTest validLines f l b = false := by
        simp only [anchorTest]
        rcases hskip with h | h <;> simp [h]
      rw [groupBugsStep_skip validLines acc b hskip, htest]
      simp only [Bool.false_eq_true, if_false]
      exact ih acc
    · by_cases hin : inDiffTest validLines (b.file, b.line) = true
      · rw [groupBugsStep_grouped validLines acc b hskip hin]
        by_cases hloc : b.file = f ∧ b.line = l
        · have hkey : ((f : String), (l : Int)) = (b.file, b.line) := by
            rw [hloc.1, hloc.2]
          have htest : anchorTest validLines f l b = true := by
            push_neg at hskip
            have hf : ¬ f = "" := by rw [← hloc.1]; exact hskip.1
            have hl2 : ¬ l ≤ 0 := by
              have : 0 < l := by rw [← hloc.2]; exact hskip.2
              omega
            have hin2 : inDiffTest validLines (f, l) = true := by rw [hkey]; exact hin
            simp [anchorTest, hloc.1, hloc.2, hin2, hf, hl2]
          rw [htest, if_pos rfl, ih]
          rw [lookupGroups_insert, if_pos hkey, ← hkey]
          cases hcase : lookupGroups acc.1 (f, l) with
          | none => simp [optExtend]
          | some g => simp [optExtend]
        · have htest : anchorTest validLines f l b = false := by
            simp only [anchorTest]
            rcases not_and_or.mp hloc with h | h <;> simp [h]
          rw [htest]
          simp only [Bool.false_eq_true, if_false]
          rw [ih, lookupGroups_insert, if_neg ?_]
          intro hc
          rw [Prod.ext_iff] at hc
          exact hloc ⟨hc.1.symm, hc.2.symm⟩
      · obtain ⟨vl, hvl⟩ : ∃ vl, validLines = some vl := by
          cases validLines with
          | none => simp [inDiffTest] at hin
          | some vl => exact ⟨vl, rfl⟩
        subst hvl
        simp only [inDiffTest, decide_eq_true_eq] at hin
        rw [groupBugsStep_offdiff vl acc b hskip hin]
        have htest : anchorTest (some vl) f l b = false := by
          by_cases hloc : b.file = f ∧ b.line = l
          · have hkey : ((f : String), (l : Int)) = (b.file, b.line) := by
              rw [hloc.1, hloc.2]
            simp only [anchorTest, inDiffTest, hkey]
            simp [hin]
          · simp only [anchorTest]
            rcases not_and_or.mp hloc with h | h <;> simp [h]
        rw [htest]
        simp only [Bool.false_eq_true, if_false]
        exact ih (acc.1, acc.2 ++ [b])

/-- A grouping step either leaves the group list unchanged or inserts the
bug at its own location. -/
theorem groupBugsStep_fst (validLines : Option (List (String × Int)))
    (acc : List ((String × Int) × List Bug) × List Bug) (b : Bug) :
    (groupBugsStep validLines acc b).1 = acc.1 ∨
    (groupBugsStep validLines acc b).1 = insertByLocation acc.1 (b.file, b.line) b := by
  rw [groupBugsStep]
  by_cases hskip : b.file = "" ∨ b.line ≤ 0
  · rw [if_pos hskip]; exact Or.inl rfl
  · rw [if_neg hskip]
    cases validLines with
    | none => right; simp
    | some vl =>
      by_cases hoff : (b.file, b.line) ∉ vl
      · left; simp [hoff]
      · right
        have hmem : (b.file, b.line) ∈ vl := not_not.mp hoff
        simp [hmem]

/-- The grouped keys stay duplicate-free along the fold. -/
theorem groupBugs_foldl_nodup (validLines : Option (List (String × Int))) :
    ∀ (bugs : List Bug) (acc : List ((String × Int) × List Bug) × List Bug),
      (acc.1.map Prod.fst).Nodup →
      (((bugs.foldl (groupBugsStep validLines) acc).1).map Prod.fst).Nodup := by
  intro bugs
  induction bugs with
  | nil => intro acc h; exact h
  | cons b rest ih =>
    intro acc h
    rw [List.foldl_cons]
    rcases groupBugsStep_fst validLines acc b with hstep | hstep
    · exact ih _ (by rw [hstep]; exact h)
    · exact ih _ (by rw [hstep]; exact nodup_keys_insert h _ _)

/-- **C8**: bugs resolving to the identical `(file, line)` anchor produce
exactly one comment at that anchor — none when no bug anchors there — whose
body is the merged body of exactly the anchored bugs in input order; and
that body contains each contributing bug's title (both titles for two
findings at the same anchor). -/
theorem same_anchor_bugs_merge_into_one_comment :
    ∀ (bugs : List Bug) (validLines : Option (List (String × Int))) (f : String) (l : Int),
      (((createLineComments bugs validLines).1.filter
          (fun c => c.path = f ∧ c.line = l)).map (fun c => c.body) =
        (if bugs.filter (anchorTest validLines f l) = [] then []
         else [mergedBody (bugs.filter (anchorTest validLines f l))])) ∧
      ∀ bug ∈ bugs.filter (anchorTest validLines f l),
        strContainsSub (mergedBody (bugs.filter (anchorTest validLines f l))) bug.title = true := by
  intro bugs validLines f l
  constructor
  · have hnodup : (((groupBugs validLines bugs).1).map Prod.fst).Nodup :=
      groupBugs_foldl_nodup validLines bugs ([], []) (by simp)
    have hlookup : lookupGroups (groupBugs validLines bugs).1 (f, l) =
        optExtend none (bugs.filter (anchorTest validLines f l)) := by
      rw [groupBugs, groupBugs_foldl_lookup validLines f l bugs ([], [])]
      rfl
    have hcomments : (createLineComments bugs validLines).1 =
        ((groupBugs validLines bugs).1).map mkLineComment := by
      rw [createLineComments]
    rw [hcomments, List.map_filter]
    have hpred : ∀ g ∈ (groupBugs validLines bugs).1,
        (((fun c : LineComment => decide (c.path = f ∧ c.line = l)) ∘ mkLineComment) g) =
          (fun g : (String × Int) × List Bug => decide (g.1 = (f, l))) g := by
      intro g _
      simp only [Function.comp_apply, mkLineComment, decide_eq_decide, Prod.ext_iff]
    rw [List.filter_congr hpred, filter_key_of_nodup hnodup (f, l)]
    cases hfl : bugs.filter (anchorTest validLines f l) with
    | nil =>
      rw [hfl] at hlookup
      have hnone : lookupGroups (groupBugs validLines bugs).1 (f, l) = none := by
        rw [hlookup]; rfl
      rw [lookupGroups, Option.map_eq_none'] at hnone
      rw [hnone]
      simp
    | cons b bs =>
      rw [hfl] at hlookup
      simp only [optExtend] at hlookup
      rw [if_neg (by simp)] at hlookup
      rw [lookupGroups] at hlookup
      obtain ⟨g, hg, hg2⟩ := Option.map_eq_some'.mp hlookup
      rw [hg]
      simp [hg2, mkLineComment]
  · intro bug hmem
    exact mergedBody_contains_title hmem

/-- Witness for C8: two findings at the same anchor — the merged body of
the anchored group contains the second one's title. -/
theorem same_anchor_bugs_merge_into_one_comment_witness :
    strContainsSub
      (mergedBody (List.filter (anchorTest none "f.py" 4)
        [{ id := "b1", severity := .medium, title := "T1", description := "D1",
           file := "f.py", line := 4 },
         { id := "b2", severity := .critical, title := "T2", description := "D2",
           file := "f.py", line := 4 }]))
      ({ id := "b2", severity := .critical, title := "T2", description := "D2",
         file := "f.py", line := 4 } : Bug).title = true :=
  (same_anchor_bugs_merge_into_one_comment
      [{ id := "b1", severity := .medium, title := "T1", description := "D1",
         file := "f.py", line := 4 },
       { id := "b2", severity := .critical, title := "T2", description := "D2",
         file := "f.py", line := 4 }] none "f.py" 4).2
    { id := "b2", severity := .critical, title := "T2", description := "D2",
      file := "f.py", line := 4 } (by decide)
